import Mathlib

/-! Verification of the cell transport protocol implementations.

This file gives a shallow embedding of the two Python implementations in this
repository, src/cell-py/cell.py (big-endian frames, GENOME sentinel, broker
handshake) and src/cell-sdk-py/cell.py (little-endian frames, direct calls),
together with the example handler in
src/examples/cell-polyglot/python-worker/main.py, and proves properties of the
embedding.

Bytes are modelled as natural numbers, byte strings as lists of naturals, and
Python str values as lists of Char (Unicode scalar values).  Values of the
JSON interchange format are an inductive type whose number case is restricted
to integers; floating point numbers are outside the embedding.  Blocking
socket reads are modelled by a buffered chunk stream: the chunk list is the
sequence of byte groups the transport makes available, and a recv call takes
at most the requested count from the front. -/

namespace Cell

/-- Big-endian 4-byte encoding of a natural number (struct.pack format >I of
cell-py/cell.py), defined for values below 2 to the 32. -/
def be32 (n : Nat) : List Nat :=
  [n / 16777216 % 256, n / 65536 % 256, n / 256 % 256, n % 256]

/-- Little-endian 4-byte encoding of a natural number (struct.pack format <I
of cell-sdk-py/cell.py). -/
def le32 (n : Nat) : List Nat :=
  [n % 256, n / 256 % 256, n / 65536 % 256, n / 16777216 % 256]

/-- Big-endian decoding of a 4-byte header (struct.unpack format >I).  The
callers only ever pass 4-byte lists; other shapes decode to 0. -/
def beDec : List Nat → Nat
  | [a, b, c, d] => ((a * 256 + b) * 256 + c) * 256 + d
  | _ => 0

/-- Little-endian decoding of a 4-byte header (struct.unpack format <I). -/
def leDec : List Nat → Nat
  | [a, b, c, d] => ((d * 256 + c) * 256 + b) * 256 + a
  | _ => 0

/-- Model of struct.pack with format >I: yields the 4 bytes when the value
fits an unsigned 32-bit field and fails (struct.error) otherwise. -/
def packU32BE (n : Nat) : Option (List Nat) :=
  if n < 4294967296 then some (be32 n) else none

/-- Model of struct.pack with format <I. -/
def packU32LE (n : Nat) : Option (List Nat) :=
  if n < 4294967296 then some (le32 n) else none

theorem beDec_be32 (n : Nat) (h : n < 4294967296) : beDec (be32 n) = n := by
  simp only [be32, beDec]
  omega

theorem leDec_le32 (n : Nat) (h : n < 4294967296) : leDec (le32 n) = n := by
  simp only [le32, leDec]
  omega

theorem be32_length (n : Nat) : (be32 n).length = 4 := rfl

theorem le32_length (n : Nat) : (le32 n).length = 4 := rfl

/-- Model of Membrane._send_vesicle in cell-py/cell.py: sendall of the packed
big-endian length followed by sendall of the data.  The result is the byte
sequence put on the wire, or none when struct.pack raises. -/
def sendVesicle (data : List Nat) : Option (List Nat) :=
  match packU32BE data.length with
  | some hdr => some (hdr ++ data)
  | none => none

/-- Wire bytes of one big-endian frame carrying the given payload (assuming
the length fits 32 bits); the composition used by both sides of cell-py. -/
def frameBytes (payload : List Nat) : List Nat :=
  be32 payload.length ++ payload

theorem sendVesicle_eq_frameBytes (data : List Nat) (h : data.length < 4294967296) :
    sendVesicle data = some (frameBytes data) := by
  simp [sendVesicle, packU32BE, frameBytes, h]

/-- Decimal digit character (codepoint 48 + d for d below 10). -/
def digitChar (d : Nat) : Char := Char.ofNat (48 + d)

/-- Test for an ASCII decimal digit character. -/
def isDigitChar (c : Char) : Bool := 48 ≤ c.toNat && c.toNat ≤ 57

/-- Lowercase hexadecimal digit character, as Python format %04x emits. -/
def hexDigChar (d : Nat) : Char :=
  if d < 10 then Char.ofNat (48 + d) else Char.ofNat (87 + d)

/-- Four lowercase hex digits of a value below 65536 (Python format %04x). -/
def hex4 (n : Nat) : List Char :=
  [hexDigChar (n / 4096), hexDigChar (n / 256 % 16), hexDigChar (n / 16 % 16),
   hexDigChar (n % 16)]

/-- Value of a single hexadecimal digit character, upper or lower case (as
accepted by Python int(s, 16) inside the json string scanner). -/
def hexVal? (c : Char) : Option Nat :=
  if 48 ≤ c.toNat && c.toNat ≤ 57 then some (c.toNat - 48)
  else if 97 ≤ c.toNat && c.toNat ≤ 102 then some (c.toNat - 87)
  else if 65 ≤ c.toNat && c.toNat ≤ 70 then some (c.toNat - 55)
  else none

/-- Fuelled helper for the decimal representation; the fuel only needs to
dominate the number of digits, and natRepr passes n + 1 which always does. -/
def natReprAux : Nat → Nat → List Char
  | 0, _ => []
  | fuel + 1, n =>
    if n < 10 then [digitChar n]
    else natReprAux fuel (n / 10) ++ [digitChar (n % 10)]

/-- Decimal representation of a natural number, as Python produces for a
nonnegative int in json.dumps. -/
def natRepr (n : Nat) : List Char := natReprAux (n + 1) n

/-- Decimal representation of a Python int, with a leading minus sign for
negative values, as json.dumps emits. -/
def intRepr : Int → List Char
  | .ofNat n => natRepr n
  | .negSucc m => '-' :: natRepr (m + 1)

theorem charOfNat_toNat (c : Char) : Char.ofNat c.toNat = c := by
  unfold Char.ofNat
  rw [dif_pos (show Nat.isValidChar c.toNat from c.valid)]
  apply Char.eq_of_val_eq
  rfl

theorem toNat_ofNat_valid {n : Nat} (h : n.isValidChar) : (Char.ofNat n).toNat = n := by
  unfold Char.ofNat
  rw [dif_pos h]
  rfl

theorem toNat_digitChar {d : Nat} (h : d < 10) : (digitChar d).toNat = 48 + d := by
  have hv : (48 + d).isValidChar := by
    exact Or.inl (by omega)
  simp only [digitChar]
  exact toNat_ofNat_valid hv

/-- UTF-8 encoding of a single Unicode scalar value, as Python str.encode
produces. -/
def utf8EncodeChar (c : Char) : List Nat :=
  let n := c.toNat
  if n < 128 then [n]
  else if n < 2048 then [192 + n / 64, 128 + n % 64]
  else if n < 65536 then [224 + n / 4096, 128 + n / 64 % 64, 128 + n % 64]
  else [240 + n / 262144, 128 + n / 4096 % 64, 128 + n / 64 % 64, 128 + n % 64]

/-- UTF-8 encoding of a Python str modelled as a list of scalar values. -/
def utf8Encode (s : List Char) : List Nat :=
  (s.map utf8EncodeChar).flatten

/-- Test for a UTF-8 continuation byte. -/
def isCont (b : Nat) : Bool := 128 ≤ b && b < 192

/-- Decoding step for one scalar value of a strict UTF-8 stream, as Python
bytes.decode with encoding utf-8 (errors strict): rejects stray continuation
bytes, the overlong leads 0xC0 and 0xC1, other overlong encodings, surrogate
codepoints and values above 0x10FFFF.  Returns the codepoint and the bytes
remaining after the sequence. -/
def utf8Step : List Nat → Option (Nat × List Nat)
  | [] => none
  | b :: rest =>
    if b < 128 then some (b, rest)
    else if b < 194 then none
    else if b < 224 then
      match rest with
      | c1 :: r => if isCont c1 then some ((b - 192) * 64 + (c1 - 128), r) else none
      | [] => none
    else if b < 240 then
      match rest with
      | c1 :: c2 :: r =>
        if isCont c1 && isCont c2 then
          let n := (b - 224) * 4096 + (c1 - 128) * 64 + (c2 - 128)
          if n < 2048 then none
          else if 55296 ≤ n && n < 57344 then none
          else some (n, r)
        else none
      | _ => none
    else if b < 245 then
      match rest with
      | c1 :: c2 :: c3 :: r =>
        if isCont c1 && isCont c2 && isCont c3 then
          let n := (b - 240) * 262144 + (c1 - 128) * 4096 + (c2 - 128) * 64 + (c3 - 128)
          if n < 65536 then none
          else if 1114112 ≤ n then none
          else some (n, r)
        else none
      | _ => none
    else none

/-- Fuelled strict UTF-8 decoding loop; each step consumes at least one byte,
so fuel equal to the input length always suffices. -/
def utf8DecodeAux : Nat → List Nat → Option (List Char)
  | _, [] => some []
  | 0, _ :: _ => none
  | fuel + 1, b :: rest =>
    (utf8Step (b :: rest)).bind
      (fun p => (utf8DecodeAux fuel p.2).map (fun cs => Char.ofNat p.1 :: cs))

/-- Strict UTF-8 decoding of a whole byte string (Python bytes.decode with
encoding utf-8). -/
def utf8Decode (l : List Nat) : Option (List Char) := utf8DecodeAux l.length l

theorem isCont_true {b : Nat} (h1 : 128 ≤ b) (h2 : b < 192) : isCont b = true := by
  simp [isCont]
  omega

set_option maxRecDepth 8192 in
theorem utf8Step_encodeChar (c : Char) (rest : List Nat) :
    utf8Step (utf8EncodeChar c ++ rest) = some (c.toNat, rest) := by
  have hvalid : c.toNat < 55296 ∨ (57343 < c.toNat ∧ c.toNat < 1114112) := c.valid
  set n := c.toNat with hn
  by_cases h1 : n < 128
  · simp only [utf8EncodeChar, ← hn, if_pos h1, List.cons_append, List.nil_append]
    simp only [utf8Step, if_pos h1]
  · by_cases h2 : n < 2048
    · simp only [utf8EncodeChar, ← hn, if_neg h1, if_pos h2, List.cons_append,
        List.nil_append]
      simp only [utf8Step]
      rw [if_neg (by omega), if_neg (by omega), if_pos (by omega),
        if_pos (isCont_true (by omega) (by omega))]
      congr 1
      congr 1
      omega
    · by_cases h3 : n < 65536
      · simp only [utf8EncodeChar, ← hn, if_neg h1, if_neg h2, if_pos h3,
          List.cons_append, List.nil_append]
        simp only [utf8Step]
        rw [if_neg (by omega), if_neg (by omega), if_neg (by omega), if_pos (by omega)]
        rw [if_pos (by rw [isCont_true (b := 128 + n / 64 % 64) (by omega) (by omega),
          isCont_true (b := 128 + n % 64) (by omega) (by omega)]; rfl)]
        have e1 : n / 4096 = n / 64 / 64 := by
          rw [Nat.div_div_eq_div_mul]
        have harith : (224 + n / 4096 - 224) * 4096 + (128 + n / 64 % 64 - 128) * 64 +
            (128 + n % 64 - 128) = n := by
          rw [e1]
          omega
        rw [harith]
        rw [if_neg (by omega),
          if_neg (by simp only [Bool.and_eq_true, decide_eq_true_eq]; omega)]
      · simp only [utf8EncodeChar, ← hn, if_neg h1, if_neg h2, if_neg h3,
          List.cons_append, List.nil_append]
        have hup : n < 1114112 := by omega
        simp only [utf8Step]
        rw [if_neg (by omega), if_neg (by omega), if_neg (by omega), if_neg (by omega),
          if_pos (by omega)]
        rw [if_pos (by rw [isCont_true (b := 128 + n / 4096 % 64) (by omega) (by omega),
          isCont_true (b := 128 + n / 64 % 64) (by omega) (by omega),
          isCont_true (b := 128 + n % 64) (by omega) (by omega)]; rfl)]
        have e1 : n / 4096 = n / 64 / 64 := by
          rw [Nat.div_div_eq_div_mul]
        have e2 : n / 262144 = n / 64 / 64 / 64 := by
          rw [Nat.div_div_eq_div_mul, Nat.div_div_eq_div_mul]
        have harith : (240 + n / 262144 - 240) * 262144 + (128 + n / 4096 % 64 - 128) * 4096 +
            (128 + n / 64 % 64 - 128) * 64 + (128 + n % 64 - 128) = n := by
          rw [e2, e1]
          omega
        rw [harith]
        rw [if_neg (by omega), if_neg (by omega)]

theorem utf8EncodeChar_length_pos (c : Char) : 0 < (utf8EncodeChar c).length := by
  simp only [utf8EncodeChar]
  split
  · simp
  · split
    · simp
    · split
      · simp
      · simp

theorem utf8DecodeAux_encode (s : List Char) :
    ∀ fuel, (utf8Encode s).length ≤ fuel → utf8DecodeAux fuel (utf8Encode s) = some s := by
  induction s with
  | nil =>
    intro fuel _
    simp [utf8Encode, utf8DecodeAux]
  | cons c cs ih =>
    intro fuel hfuel
    have hsplit : utf8Encode (c :: cs) = utf8EncodeChar c ++ utf8Encode cs := by
      simp [utf8Encode]
    rw [hsplit] at hfuel ⊢
    have hpos := utf8EncodeChar_length_pos c
    cases hec : utf8EncodeChar c with
    | nil =>
      rw [hec] at hpos
      simp at hpos
    | cons b t =>
      have hlen : t.length + 1 + (utf8Encode cs).length ≤ fuel := by
        rw [hec] at hfuel
        have := hfuel
        simp only [List.length_append, List.length_cons] at this
        omega
      cases fuel with
      | zero => omega
      | succ g =>
        show utf8DecodeAux (g + 1) (b :: (t ++ utf8Encode cs)) = some (c :: cs)
        rw [utf8DecodeAux]
        have hstep : utf8Step (b :: (t ++ utf8Encode cs)) = some (c.toNat, utf8Encode cs) := by
          have := utf8Step_encodeChar c (utf8Encode cs)
          rw [hec] at this
          simpa using this
        rw [hstep, Option.some_bind, ih g (by omega)]
        simp [charOfNat_toNat]

/-- Round trip of the UTF-8 model: decoding an encoded str restores it.  This
is the bytes.decode and str.encode pair both Python implementations use. -/
theorem utf8Decode_utf8Encode (s : List Char) : utf8Decode (utf8Encode s) = some s := by
  exact utf8DecodeAux_encode s _ le_rfl

/-- Values of the JSON interchange format exchanged by the cells: null, bool,
number, string, list, string-keyed mapping.  A mapping is modelled as its
insertion-ordered key/value list, the order json.dumps serializes and the
order in which json.loads inserts parsed pairs.  The number case is
restricted to Python int; float payloads are outside this embedding. -/
inductive Json where
  | null : Json
  | bool (b : Bool) : Json
  | num (n : Int) : Json
  | str (s : List Char) : Json
  | arr (xs : List Json) : Json
  | obj (ms : List (List Char × Json)) : Json

/-- Escape of one character inside a serialized JSON string, following
json.dumps with its default ensure_ascii: double quote and backslash take a
backslash escape, the five control characters with short escapes use them,
every other character outside printable ASCII 0x20..0x7e becomes a lowercase
four-digit \u escape, with a surrogate pair for codepoints above 0xFFFF. -/
def escChar (c : Char) : List Char :=
  if c = '"' then ['\\', '"']
  else if c = '\\' then ['\\', '\\']
  else if c.toNat = 8 then ['\\', 'b']
  else if c.toNat = 9 then ['\\', 't']
  else if c.toNat = 10 then ['\\', 'n']
  else if c.toNat = 12 then ['\\', 'f']
  else if c.toNat = 13 then ['\\', 'r']
  else if 32 ≤ c.toNat && c.toNat ≤ 126 then [c]
  else if c.toNat < 65536 then '\\' :: 'u' :: hex4 c.toNat
  else
    ('\\' :: 'u' :: hex4 (55296 + (c.toNat - 65536) / 1024)) ++
      ('\\' :: 'u' :: hex4 (56320 + (c.toNat - 65536) % 1024))

/-- Serialized body of a JSON string (the part between the quotes). -/
def escStr (s : List Char) : List Char := (s.map escChar).flatten

mutual

/-- Model of json.dumps with Python defaults: item separator comma and space,
key separator colon and space, ensure_ascii escapes, int numbers in decimal.
Both implementations serialize requests and responses with exactly this
call. -/
def dumps : Json → List Char
  | .null => ['n', 'u', 'l', 'l']
  | .num n => intRepr n
  | .bool true => ['t', 'r', 'u', 'e']
  | .str s => '"' :: escStr s ++ ['"']
  | .bool false => ['f', 'a', 'l', 's', 'e']
  | .arr xs => '[' :: dumpsElems xs ++ [']']
  | .obj ms => '\x7b' :: dumpsMems ms ++ ['\x7d']

/-- Comma-and-space separated serialization of the elements of a JSON
array. -/
def dumpsElems : List Json → List Char
  | [] => []
  | [x] => dumps x
  | x :: y :: t => dumps x ++ ',' :: ' ' :: dumpsElems (y :: t)

/-- Comma-and-space separated serialization of the members of a JSON object,
each as quoted key, colon, space, value. -/
def dumpsMems : List (List Char × Json) → List Char
  | [] => []
  | [(k, v)] => '"' :: escStr k ++ '"' :: ':' :: ' ' :: dumps v
  | (k, v) :: m :: t =>
      ('"' :: escStr k ++ '"' :: ':' :: ' ' :: dumps v) ++ ',' :: ' ' :: dumpsMems (m :: t)

end

/-- Serialized request or response bytes: json.dumps followed by
str.encode. -/
def jsonDumpsBytes (v : Json) : List Nat := utf8Encode (dumps v)

mutual

/-- Fuel weight of a value: an upper bound on the parser fuel needed to parse
its serialization. -/
def jsonW : Json → Nat
  | .null => 1
  | .bool _ => 1
  | .num _ => 1
  | .str _ => 1
  | .arr xs => 1 + elemsW xs
  | .obj ms => 1 + memsW ms

/-- Fuel weight of an array element list. -/
def elemsW : List Json → Nat
  | [] => 1
  | x :: t => 1 + max (jsonW x) (elemsW t)

/-- Fuel weight of an object member list. -/
def memsW : List (List Char × Json) → Nat
  | [] => 1
  | (_, v) :: t => 1 + max (jsonW v) (memsW t)

end

/-- Test for the whitespace characters the JSON decoder skips between
tokens. -/
def isWsChar (c : Char) : Bool :=
  c = ' ' || c = Char.ofNat 9 || c = Char.ofNat 10 || c = Char.ofNat 13

/-- Leading-whitespace skipping, as the json decoder does between tokens. -/
def skipWs : List Char → List Char
  | [] => []
  | c :: r => if isWsChar c then skipWs r else c :: r

/-- Greedy run of decimal digits with an accumulator; the digit-run consumer
of the json number scanner, restricted to the integer part. -/
def parseDigits : Nat → List Char → Nat × List Char
  | acc, [] => (acc, [])
  | acc, c :: r =>
    if isDigitChar c then parseDigits (acc * 10 + (c.toNat - 48)) r
    else (acc, c :: r)

mutual

/-- Fuelled body scanner of a JSON string after the opening quote, modelling
the json.loads string scanner: ends at an unescaped double quote, defers a
backslash to the escape scanner, and rejects raw control characters.  Every
transition consumes at least one character, so fuel above the input length
always suffices. -/
def parseStrF : Nat → List Char → Option (List Char × List Char)
  | 0, _ => none
  | fuel + 1, s =>
    match s with
    | [] => none
    | c :: r =>
      if c = '"' then some ([], r)
      else if c = '\\' then parseEsc fuel r
      else if c.toNat < 32 then none
      else (parseStrF fuel r).map (fun p => (c :: p.1, p.2))

/-- Scanner for the character after a backslash: the short escapes of
json.loads and the four-hex-digit \u escape. -/
def parseEsc : Nat → List Char → Option (List Char × List Char)
  | 0, _ => none
  | fuel + 1, s =>
    match s with
    | [] => none
    | e :: r1 =>
      if e = '"' then (parseStrF fuel r1).map (fun p => ('"' :: p.1, p.2))
      else if e = '\\' then (parseStrF fuel r1).map (fun p => ('\\' :: p.1, p.2))
      else if e = '/' then (parseStrF fuel r1).map (fun p => ('/' :: p.1, p.2))
      else if e = 'b' then (parseStrF fuel r1).map (fun p => (Char.ofNat 8 :: p.1, p.2))
      else if e = 'f' then (parseStrF fuel r1).map (fun p => (Char.ofNat 12 :: p.1, p.2))
      else if e = 'n' then (parseStrF fuel r1).map (fun p => (Char.ofNat 10 :: p.1, p.2))
      else if e = 'r' then (parseStrF fuel r1).map (fun p => (Char.ofNat 13 :: p.1, p.2))
      else if e = 't' then (parseStrF fuel r1).map (fun p => (Char.ofNat 9 :: p.1, p.2))
      else if e = 'u' then parseU fuel r1
      else none

/-- Scanner for the four hex digits of a \u escape.  A high surrogate value
defers to the low-surrogate scanner; a lone low surrogate is rejected here
(Python would build a lone-surrogate str value, which has no scalar-value
representation and cannot be produced by serializing data). -/
def parseU : Nat → List Char → Option (List Char × List Char)
  | 0, _ => none
  | fuel + 1, s =>
    match s with
    | h1 :: h2 :: h3 :: h4 :: r2 =>
      match hexVal? h1, hexVal? h2, hexVal? h3, hexVal? h4 with
      | some a, some b, some c2, some d =>
        let n := ((a * 16 + b) * 16 + c2) * 16 + d
        if 55296 ≤ n && n < 56320 then parseLowSur fuel n r2
        else if 56320 ≤ n && n < 57344 then none
        else (parseStrF fuel r2).map (fun p => (Char.ofNat n :: p.1, p.2))
      | _, _, _, _ => none
    | _ => none

/-- Scanner for the second \u escape of a surrogate pair, given the value of
the preceding high surrogate; joins the pair into one scalar value. -/
def parseLowSur : Nat → Nat → List Char → Option (List Char × List Char)
  | 0, _, _ => none
  | fuel + 1, n, s =>
    match s with
    | e1 :: e2 :: g1 :: g2 :: g3 :: g4 :: r3 =>
      if e1 = '\\' then
        if e2 = 'u' then
          match hexVal? g1, hexVal? g2, hexVal? g3, hexVal? g4 with
          | some a2, some b2, some c3, some d2 =>
            let m := ((a2 * 16 + b2) * 16 + c3) * 16 + d2
            if 56320 ≤ m && m < 57344 then
              (parseStrF fuel r3).map (fun p =>
                (Char.ofNat (65536 + (n - 55296) * 1024 + (m - 56320)) :: p.1, p.2))
            else none
          | _, _, _, _ => none
        else none
      else none
    | _ => none

end

/-- String-body scanner with the always-sufficient fuel. -/
def parseStr (s : List Char) : Option (List Char × List Char) :=
  parseStrF (s.length + 1) s

/-- Recognizer for the tail of the literal null after its first character. -/
def expectNull : List Char → Option (Json × List Char)
  | 'u' :: 'l' :: 'l' :: r2 => some (.null, r2)
  | _ => none

/-- Recognizer for the tail of the literal true after its first character. -/
def expectTrue : List Char → Option (Json × List Char)
  | 'r' :: 'u' :: 'e' :: r2 => some (.bool true, r2)
  | _ => none

/-- Recognizer for the tail of the literal false after its first
character. -/
def expectFalse : List Char → Option (Json × List Char)
  | 'a' :: 'l' :: 's' :: 'e' :: r2 => some (.bool false, r2)
  | _ => none

/-- Scanner for the digits of a negative integer after the minus sign. -/
def parseNeg (r : List Char) : Option (Json × List Char) :=
  match r with
  | [] => none
  | d :: r2 =>
    if isDigitChar d then
      let p := parseDigits (d.toNat - 48) r2
      some (.num (-(p.1 : Int)), p.2)
    else none

mutual

/-- Fuelled JSON value parser modelling the json.loads scanner.  The head
character dispatches on the token kind; the number case is restricted to
integers, matching the value model.  Every recursive call decreases the
fuel; jsonW bounds the fuel a serialized value needs. -/
def parseVal : Nat → List Char → Option (Json × List Char)
  | 0, _ => none
  | fuel + 1, s =>
    match s with
    | [] => none
    | c :: r =>
      if c = 'n' then expectNull r
      else if c = 't' then expectTrue r
      else if c = 'f' then expectFalse r
      else if c = '"' then
        (parseStr r).map (fun p => (.str p.1, p.2))
      else if c = '[' then
        match skipWs r with
        | [] => none
        | c2 :: r2 =>
          if c2 = ']' then some (.arr [], r2)
          else (parseElems fuel (c2 :: r2)).map (fun p => (.arr p.1, p.2))
      else if c = '\x7b' then
        match skipWs r with
        | [] => none
        | c2 :: r2 =>
          if c2 = '\x7d' then some (.obj [], r2)
          else (parseMems fuel (c2 :: r2)).map (fun p => (.obj p.1, p.2))
      else if c = '-' then parseNeg r
      else if isDigitChar c then
        let p := parseDigits (c.toNat - 48) r
        some (.num (p.1 : Int), p.2)
      else none

/-- Parser for the elements of a nonempty JSON array after the opening
bracket and any whitespace, up to and including the closing bracket. -/
def parseElems : Nat → List Char → Option (List Json × List Char)
  | 0, _ => none
  | fuel + 1, s =>
    (parseVal fuel s).bind (fun p =>
      match skipWs p.2 with
      | [] => none
      | c2 :: r2 =>
        if c2 = ']' then some ([p.1], r2)
        else if c2 = ',' then
          (parseElems fuel (skipWs r2)).map (fun q => (p.1 :: q.1, q.2))
        else none)

/-- Parser for the members of a nonempty JSON object after the opening brace
and any whitespace, up to and including the closing brace. -/
def parseMems : Nat → List Char → Option (List (List Char × Json) × List Char)
  | 0, _ => none
  | fuel + 1, s =>
    match s with
    | '"' :: r =>
      (parseStr r).bind (fun pk =>
        match skipWs pk.2 with
        | [] => none
        | c2 :: r2 =>
          if c2 = ':' then
            (parseVal fuel (skipWs r2)).bind (fun pv =>
              match skipWs pv.2 with
              | [] => none
              | c3 :: r3 =>
                if c3 = '\x7d' then some ([(pk.1, pv.1)], r3)
                else if c3 = ',' then
                  (parseMems fuel (skipWs r3)).map (fun q => ((pk.1, pv.1) :: q.1, q.2))
                else none)
          else none)
    | _ => none

end

/-- Model of json.loads: skip surrounding whitespace, parse one value, and
reject trailing garbage.  The fuel passed to the parser exceeds the input
length, which dominates the weight of any value the input serializes. -/
def jsonLoads (s : List Char) : Option Json :=
  match parseVal (s.length + 1) (skipWs s) with
  | some (v, r) => if skipWs r = [] then some v else none
  | none => none

/-- Deserialization of payload bytes: bytes.decode with utf-8 followed by
json.loads, the sequence both implementations run on a received payload. -/
def jsonLoadsBytes (payload : List Nat) : Option Json :=
  match utf8Decode payload with
  | some s => jsonLoads s
  | none => none

theorem char_ne_of_toNat_ne {c d : Char} (h : c.toNat ≠ d.toNat) : c ≠ d :=
  fun he => h (he ▸ rfl)

theorem toNat_of_eq {c d : Char} (h : c = d) : c.toNat = d.toNat := h ▸ rfl

theorem skipWs_cons_notWs {c : Char} (r : List Char) (h : isWsChar c = false) :
    skipWs (c :: r) = c :: r := by
  simp [skipWs, h]

theorem skipWs_cons_space (r : List Char) : skipWs (' ' :: r) = skipWs r := by
  simp [skipWs, isWsChar]

theorem skipWs_nil : skipWs [] = [] := rfl

/-- Condition on a continuation list under which the greedy digit run stops
exactly at its head. -/
def noDigitHead : List Char → Prop
  | [] => True
  | c :: _ => isDigitChar c = false

theorem parseDigits_stop (acc : Nat) (rest : List Char) (h : noDigitHead rest) :
    parseDigits acc rest = (acc, rest) := by
  cases rest with
  | nil => rfl
  | cons c r =>
    simp only [noDigitHead] at h
    simp [parseDigits, h]

/-- Power-of-ten companion of natReprAux: ten to the number of digits
produced. -/
def pow10Aux : Nat → Nat → Nat
  | 0, _ => 1
  | fuel + 1, n => if n < 10 then 10 else pow10Aux fuel (n / 10) * 10

theorem parseDigits_natReprAux (fuel : Nat) :
    ∀ n acc rest, n < fuel →
      parseDigits acc (natReprAux fuel n ++ rest) =
        parseDigits (acc * pow10Aux fuel n + n) rest := by
  induction fuel with
  | zero =>
    intro n _ _ h
    omega
  | succ g ih =>
    intro n acc rest h
    by_cases hn : n < 10
    · have hd : isDigitChar (digitChar n) = true := by
        simp only [isDigitChar, toNat_digitChar hn]
        simp only [Bool.and_eq_true, decide_eq_true_eq]
        omega
      simp only [natReprAux, pow10Aux, if_pos hn, List.cons_append, List.nil_append]
      simp only [parseDigits, hd, if_pos]
      rw [toNat_digitChar hn]
      congr 2
      omega
    · have hdiv : n / 10 < g := by omega
      have hd : isDigitChar (digitChar (n % 10)) = true := by
        simp only [isDigitChar, toNat_digitChar (show n % 10 < 10 by omega)]
        simp only [Bool.and_eq_true, decide_eq_true_eq]
        omega
      simp only [natReprAux, pow10Aux, if_neg hn, List.append_assoc, List.cons_append,
        List.nil_append]
      rw [ih (n / 10) acc (digitChar (n % 10) :: rest) hdiv]
      simp only [parseDigits, hd, if_pos]
      rw [toNat_digitChar (show n % 10 < 10 by omega)]
      congr 1
      generalize pow10Aux g (n / 10) = P
      have h48 : 48 + n % 10 - 48 = n % 10 := by omega
      rw [h48]
      have expand : (acc * P + n / 10) * 10 + n % 10 =
          acc * (P * 10) + ((n / 10) * 10 + n % 10) := by ring
      rw [expand]
      congr 1
      omega

theorem parseDigits_natRepr (n : Nat) (rest : List Char) (h : noDigitHead rest) :
    parseDigits 0 (natRepr n ++ rest) = (n, rest) := by
  rw [natRepr, parseDigits_natReprAux (n + 1) n 0 rest (by omega),
    parseDigits_stop _ _ h]
  congr 1
  omega

theorem natReprAux_head (fuel : Nat) :
    ∀ n, n < fuel → ∃ c r, natReprAux fuel n = c :: r ∧ isDigitChar c = true := by
  induction fuel with
  | zero =>
    intro n h
    omega
  | succ g ih =>
    intro n h
    by_cases hn : n < 10
    · refine ⟨digitChar n, [], by simp [natReprAux, hn], ?_⟩
      simp only [isDigitChar, toNat_digitChar hn, Bool.and_eq_true, decide_eq_true_eq]
      omega
    · obtain ⟨c, r, he, hd⟩ := ih (n / 10) (by omega)
      exact ⟨c, r ++ [digitChar (n % 10)], by simp [natReprAux, hn, he], hd⟩

theorem natRepr_head (n : Nat) :
    ∃ c r, natRepr n = c :: r ∧ isDigitChar c = true :=
  natReprAux_head (n + 1) n (by omega)

/-- Characters that can start the serialization of a value: the head bytes
json.dumps can emit for null, bool, string, array, object and int. -/
def isValStart (c : Char) : Bool :=
  c = 'n' || c = 't' || c = 'f' || c = '"' || c = '[' || c = '\x7b' || c = '-' ||
    isDigitChar c

theorem isValStart_toNat {c : Char} (h : isValStart c = true) :
    c.toNat = 110 ∨ c.toNat = 116 ∨ c.toNat = 102 ∨ c.toNat = 34 ∨ c.toNat = 91 ∨
      c.toNat = 123 ∨ c.toNat = 45 ∨ (48 ≤ c.toNat ∧ c.toNat ≤ 57) := by
  simp only [isValStart, isDigitChar, Bool.or_eq_true, decide_eq_true_eq,
    Bool.and_eq_true] at h
  rcases h with ((((((h | h) | h) | h) | h) | h) | h) | h
  · exact Or.inl (toNat_of_eq h)
  · exact Or.inr (Or.inl (toNat_of_eq h))
  · exact Or.inr (Or.inr (Or.inl (toNat_of_eq h)))
  · exact Or.inr (Or.inr (Or.inr (Or.inl (toNat_of_eq h))))
  · exact Or.inr (Or.inr (Or.inr (Or.inr (Or.inl (toNat_of_eq h)))))
  · exact Or.inr (Or.inr (Or.inr (Or.inr (Or.inr (Or.inl (toNat_of_eq h))))))
  · exact Or.inr (Or.inr (Or.inr (Or.inr (Or.inr (Or.inr (Or.inl (toNat_of_eq h)))))))
  · refine Or.inr (Or.inr (Or.inr (Or.inr (Or.inr (Or.inr (Or.inr ?_))))))
    omega

theorem isValStart_notWs {c : Char} (h : isValStart c = true) : isWsChar c = false := by
  have ht := isValStart_toNat h
  simp only [isWsChar, Bool.or_eq_false_iff, decide_eq_false_iff_not]
  refine ⟨⟨⟨?_, ?_⟩, ?_⟩, ?_⟩
  · exact char_ne_of_toNat_ne (by rw [show ((' ' : Char)).toNat = 32 from rfl]; omega)
  · exact char_ne_of_toNat_ne (by rw [show (Char.ofNat 9).toNat = 9 from rfl]; omega)
  · exact char_ne_of_toNat_ne (by rw [show (Char.ofNat 10).toNat = 10 from rfl]; omega)
  · exact char_ne_of_toNat_ne (by rw [show (Char.ofNat 13).toNat = 13 from rfl]; omega)

theorem hexVal_hexDigChar {x : Nat} (h : x < 16) : hexVal? (hexDigChar x) = some x := by
  by_cases hx : x < 10
  · have ht : (hexDigChar x).toNat = 48 + x := by
      simp only [hexDigChar, if_pos hx]
      exact toNat_ofNat_valid (Or.inl (by omega))
    simp only [hexVal?, ht]
    rw [if_pos (by simp only [Bool.and_eq_true, decide_eq_true_eq]; omega)]
    congr 1
    omega
  · have ht : (hexDigChar x).toNat = 87 + x := by
      simp only [hexDigChar, if_neg hx]
      exact toNat_ofNat_valid (Or.inl (by omega))
    simp only [hexVal?, ht]
    rw [if_neg (by simp only [Bool.and_eq_true, decide_eq_true_eq]; omega),
      if_pos (by simp only [Bool.and_eq_true, decide_eq_true_eq]; omega)]
    congr 1
    omega

theorem parseStrF_plain (fuel : Nat) (c : Char) (r : List Char) (h1 : c ≠ '"')
    (h2 : c ≠ '\\') (h3 : ¬(c.toNat < 32)) :
    parseStrF (fuel + 1) (c :: r) = (parseStrF fuel r).map (fun p => (c :: p.1, p.2)) := by
  simp only [parseStrF]
  rw [if_neg h1, if_neg h2, if_neg h3]

theorem parseU_basic (fuel : Nat) (h1 h2 h3 h4 : Char) (a b c2 d : Nat) (r : List Char)
    (ha : hexVal? h1 = some a) (hb : hexVal? h2 = some b) (hc : hexVal? h3 = some c2)
    (hd : hexVal? h4 = some d)
    (hrange : ¬(55296 ≤ ((a * 16 + b) * 16 + c2) * 16 + d ∧
      ((a * 16 + b) * 16 + c2) * 16 + d < 57344)) :
    parseU (fuel + 1) (h1 :: h2 :: h3 :: h4 :: r) =
      (parseStrF fuel r).map
        (fun p => (Char.ofNat (((a * 16 + b) * 16 + c2) * 16 + d) :: p.1, p.2)) := by
  simp only [parseU, ha, hb, hc, hd]
  rw [if_neg (by simp only [Bool.and_eq_true, decide_eq_true_eq]; omega),
    if_neg (by simp only [Bool.and_eq_true, decide_eq_true_eq]; omega)]

theorem parseU_high (fuel : Nat) (h1 h2 h3 h4 : Char) (a b c2 d : Nat) (r : List Char)
    (ha : hexVal? h1 = some a) (hb : hexVal? h2 = some b) (hc : hexVal? h3 = some c2)
    (hd : hexVal? h4 = some d)
    (hrange : 55296 ≤ ((a * 16 + b) * 16 + c2) * 16 + d ∧
      ((a * 16 + b) * 16 + c2) * 16 + d < 56320) :
    parseU (fuel + 1) (h1 :: h2 :: h3 :: h4 :: r) =
      parseLowSur fuel (((a * 16 + b) * 16 + c2) * 16 + d) r := by
  simp only [parseU, ha, hb, hc, hd]
  rw [if_pos (by simp only [Bool.and_eq_true, decide_eq_true_eq]; omega)]

/-- Four-digit hex expansion used by the escape serializer: hex4 of a value
below 65536 scans back to that value. -/
theorem hex4_parse (n : Nat) (h : n < 65536) :
    hexVal? (hexDigChar (n / 4096)) = some (n / 4096) ∧
    hexVal? (hexDigChar (n / 256 % 16)) = some (n / 256 % 16) ∧
    hexVal? (hexDigChar (n / 16 % 16)) = some (n / 16 % 16) ∧
    hexVal? (hexDigChar (n % 16)) = some (n % 16) ∧
    ((n / 4096 * 16 + n / 256 % 16) * 16 + n / 16 % 16) * 16 + n % 16 = n := by
  refine ⟨hexVal_hexDigChar (by omega), hexVal_hexDigChar (by omega),
    hexVal_hexDigChar (by omega), hexVal_hexDigChar (by omega), by omega⟩

theorem parseStrF_quote (g : Nat) (r : List Char) :
    parseStrF (g + 1) ('"' :: r) = some ([], r) := by
  simp [parseStrF]

theorem parseStrF_esc (g : Nat) (r : List Char) :
    parseStrF (g + 1) ('\\' :: r) = parseEsc g r := by
  simp [parseStrF]

theorem parseEsc_q (g : Nat) (r : List Char) :
    parseEsc (g + 1) ('"' :: r) = (parseStrF g r).map (fun p => ('"' :: p.1, p.2)) := by
  simp [parseEsc]

theorem parseEsc_bs (g : Nat) (r : List Char) :
    parseEsc (g + 1) ('\\' :: r) = (parseStrF g r).map (fun p => ('\\' :: p.1, p.2)) := by
  simp [parseEsc]

theorem parseEsc_b (g : Nat) (r : List Char) :
    parseEsc (g + 1) ('b' :: r) =
      (parseStrF g r).map (fun p => (Char.ofNat 8 :: p.1, p.2)) := by
  simp [parseEsc]

theorem parseEsc_f (g : Nat) (r : List Char) :
    parseEsc (g + 1) ('f' :: r) =
      (parseStrF g r).map (fun p => (Char.ofNat 12 :: p.1, p.2)) := by
  simp [parseEsc]

theorem parseEsc_n (g : Nat) (r : List Char) :
    parseEsc (g + 1) ('n' :: r) =
      (parseStrF g r).map (fun p => (Char.ofNat 10 :: p.1, p.2)) := by
  simp [parseEsc]

theorem parseEsc_r (g : Nat) (r : List Char) :
    parseEsc (g + 1) ('r' :: r) =
      (parseStrF g r).map (fun p => (Char.ofNat 13 :: p.1, p.2)) := by
  simp [parseEsc]

theorem parseEsc_t (g : Nat) (r : List Char) :
    parseEsc (g + 1) ('t' :: r) =
      (parseStrF g r).map (fun p => (Char.ofNat 9 :: p.1, p.2)) := by
  simp [parseEsc]

theorem parseEsc_u (g : Nat) (r : List Char) :
    parseEsc (g + 1) ('u' :: r) = parseU g r := by
  simp [parseEsc]

theorem parseLowSur_hit (g n : Nat) (g1 g2 g3 g4 : Char) (a2 b2 c3 d2 : Nat)
    (r : List Char)
    (f1 : hexVal? g1 = some a2) (f2 : hexVal? g2 = some b2)
    (f3 : hexVal? g3 = some c3) (f4 : hexVal? g4 = some d2)
    (hm : 56320 ≤ ((a2 * 16 + b2) * 16 + c3) * 16 + d2 ∧
      ((a2 * 16 + b2) * 16 + c3) * 16 + d2 < 57344) :
    parseLowSur (g + 1) n ('\\' :: 'u' :: g1 :: g2 :: g3 :: g4 :: r) =
      (parseStrF g r).map (fun p =>
        (Char.ofNat (65536 + (n - 55296) * 1024 +
          (((a2 * 16 + b2) * 16 + c3) * 16 + d2 - 56320)) :: p.1, p.2)) := by
  simp only [parseLowSur, if_true, f1, f2, f3, f4]
  rw [if_pos (by simp only [Bool.and_eq_true, decide_eq_true_eq]; exact hm)]

theorem parseStrF_escStr (s : List Char) :
    ∀ fuel rest, (escStr s).length + 1 ≤ fuel →
      parseStrF fuel (escStr s ++ '"' :: rest) = some (s, rest) := by
  induction s with
  | nil =>
    intro fuel rest hf
    rw [show escStr [] = [] from rfl, List.nil_append]
    rw [show escStr [] = [] from rfl] at hf
    obtain ⟨g, rfl⟩ : ∃ g, fuel = g + 1 := ⟨fuel - 1, by simp at hf; omega⟩
    exact parseStrF_quote g rest
  | cons c cs ih =>
    intro fuel rest hf
    have hsplit : escStr (c :: cs) = escChar c ++ escStr cs := by
      simp [escStr]
    rw [hsplit] at hf
    rw [hsplit, List.append_assoc]
    have hlen : (escChar c).length + ((escStr cs).length + 1) ≤ fuel := by
      simp only [List.length_append] at hf
      omega
    have hvalid : c.toNat < 55296 ∨ (57343 < c.toNat ∧ c.toNat < 1114112) := c.valid
    by_cases h1 : c = '"'
    · subst h1
      rw [show escChar '"' = ['\\', '"'] from rfl] at hlen ⊢
      obtain ⟨g, rfl⟩ : ∃ g, fuel = g + 2 := ⟨fuel - 2, by simp at hlen; omega⟩
      simp only [List.cons_append, List.nil_append]
      rw [parseStrF_esc, parseEsc_q, ih g rest (by simp at hlen; omega)]
      rfl
    · by_cases h2 : c = '\\'
      · subst h2
        rw [show escChar '\\' = ['\\', '\\'] from rfl] at hlen ⊢
        obtain ⟨g, rfl⟩ : ∃ g, fuel = g + 2 := ⟨fuel - 2, by simp at hlen; omega⟩
        simp only [List.cons_append, List.nil_append]
        rw [parseStrF_esc, parseEsc_bs, ih g rest (by simp at hlen; omega)]
        rfl
      · by_cases h3 : c.toNat = 8
        · rw [show escChar c = ['\\', 'b'] by
            simp only [escChar, if_neg h1, if_neg h2, if_pos h3]] at hlen ⊢
          obtain ⟨g, rfl⟩ : ∃ g, fuel = g + 2 := ⟨fuel - 2, by simp at hlen; omega⟩
          simp only [List.cons_append, List.nil_append]
          rw [parseStrF_esc, parseEsc_b, ih g rest (by simp at hlen; omega),
            show Char.ofNat 8 = c by rw [← h3, charOfNat_toNat]]
          rfl
        · by_cases h4 : c.toNat = 9
          · rw [show escChar c = ['\\', 't'] by
              simp only [escChar, if_neg h1, if_neg h2, if_neg h3, if_pos h4]] at hlen ⊢
            obtain ⟨g, rfl⟩ : ∃ g, fuel = g + 2 := ⟨fuel - 2, by simp at hlen; omega⟩
            simp only [List.cons_append, List.nil_append]
            rw [parseStrF_esc, parseEsc_t, ih g rest (by simp at hlen; omega),
              show Char.ofNat 9 = c by rw [← h4, charOfNat_toNat]]
            rfl
          · by_cases h5 : c.toNat = 10
            · rw [show escChar c = ['\\', 'n'] by
                simp only [escChar, if_neg h1, if_neg h2, if_neg h3, if_neg h4,
                  if_pos h5]] at hlen ⊢
              obtain ⟨g, rfl⟩ : ∃ g, fuel = g + 2 := ⟨fuel - 2, by simp at hlen; omega⟩
              simp only [List.cons_append, List.nil_append]
              rw [parseStrF_esc, parseEsc_n, ih g rest (by simp at hlen; omega),
                show Char.ofNat 10 = c by rw [← h5, charOfNat_toNat]]
              rfl
            · by_cases h6 : c.toNat = 12
              · rw [show escChar c = ['\\', 'f'] by
                  simp only [escChar, if_neg h1, if_neg h2, if_neg h3, if_neg h4,
                    if_neg h5, if_pos h6]] at hlen ⊢
                obtain ⟨g, rfl⟩ : ∃ g, fuel = g + 2 := ⟨fuel - 2, by simp at hlen; omega⟩
                simp only [List.cons_append, List.nil_append]
                rw [parseStrF_esc, parseEsc_f, ih g rest (by simp at hlen; omega),
                  show Char.ofNat 12 = c by rw [← h6, charOfNat_toNat]]
                rfl
              · by_cases h7 : c.toNat = 13
                · rw [show escChar c = ['\\', 'r'] by
                    simp only [escChar, if_neg h1, if_neg h2, if_neg h3, if_neg h4,
                      if_neg h5, if_neg h6, if_pos h7]] at hlen ⊢
                  obtain ⟨g, rfl⟩ : ∃ g, fuel = g + 2 := ⟨fuel - 2, by simp at hlen; omega⟩
                  simp only [List.cons_append, List.nil_append]
                  rw [parseStrF_esc, parseEsc_r, ih g rest (by simp at hlen; omega),
                    show Char.ofNat 13 = c by rw [← h7, charOfNat_toNat]]
                  rfl
                · by_cases h8 : 32 ≤ c.toNat ∧ c.toNat ≤ 126
                  · rw [show escChar c = [c] by
                      simp only [escChar, if_neg h1, if_neg h2, if_neg h3, if_neg h4,
                        if_neg h5, if_neg h6, if_neg h7]
                      rw [if_pos (by simp only [Bool.and_eq_true, decide_eq_true_eq]
                                     exact h8)]] at hlen ⊢
                    obtain ⟨g, rfl⟩ : ∃ g, fuel = g + 1 :=
                      ⟨fuel - 1, by simp at hlen; omega⟩
                    rw [show ([c] ++ (escStr cs ++ '"' :: rest)) =
                      c :: (escStr cs ++ '"' :: rest) from rfl]
                    rw [parseStrF_plain g c _ h1 h2 (by omega),
                      ih g rest (by simp at hlen; omega)]
                    rfl
                  · by_cases h9 : c.toNat < 65536
                    · rw [show escChar c = '\\' :: 'u' :: hex4 c.toNat by
                        simp only [escChar, if_neg h1, if_neg h2, if_neg h3, if_neg h4,
                          if_neg h5, if_neg h6, if_neg h7]
                        rw [if_neg (by simp only [Bool.and_eq_true, decide_eq_true_eq]
                                       exact h8), if_pos h9]] at hlen ⊢
                      obtain ⟨g, rfl⟩ : ∃ g, fuel = g + 3 :=
                        ⟨fuel - 3, by
                          have hx : (hex4 c.toNat).length = 4 := rfl
                          simp only [List.length_cons, hx] at hlen
                          omega⟩
                      simp only [List.cons_append]
                      rw [parseStrF_esc, parseEsc_u]
                      obtain ⟨e1, e2, e3, e4, e5⟩ := hex4_parse c.toNat h9
                      simp only [hex4, List.cons_append, List.nil_append]
                      rw [parseU_basic g _ _ _ _ _ _ _ _ _ e1 e2 e3 e4
                        (by rw [e5]; omega)]
                      rw [e5, charOfNat_toNat, ih g rest (by
                        have hx : (hex4 c.toNat).length = 4 := rfl
                        simp only [List.length_cons, hx] at hlen
                        omega)]
                      rfl
                    · have h10 : 65536 ≤ c.toNat ∧ c.toNat < 1114112 := by omega
                      have hesc : escChar c =
                          ('\\' :: 'u' :: hex4 (55296 + (c.toNat - 65536) / 1024)) ++
                            ('\\' :: 'u' :: hex4 (56320 + (c.toNat - 65536) % 1024)) := by
                        simp only [escChar, if_neg h1, if_neg h2, if_neg h3, if_neg h4,
                          if_neg h5, if_neg h6, if_neg h7]
                        rw [if_neg (by simp only [Bool.and_eq_true, decide_eq_true_eq]
                                       exact h8), if_neg h9]
                      rw [hesc] at hlen ⊢
                      obtain ⟨g, rfl⟩ : ∃ g, fuel = g + 4 :=
                        ⟨fuel - 4, by
                          have hx : (hex4 (55296 + (c.toNat - 65536) / 1024)).length = 4 :=
                            rfl
                          have hy : (hex4 (56320 + (c.toNat - 65536) % 1024)).length = 4 :=
                            rfl
                          simp only [List.length_cons, List.length_append, hx, hy] at hlen
                          omega⟩
                      simp only [List.cons_append, List.append_assoc]
                      rw [parseStrF_esc, parseEsc_u]
                      have hhi : 55296 + (c.toNat - 65536) / 1024 < 65536 := by omega
                      have hlo : 56320 + (c.toNat - 65536) % 1024 < 65536 := by
                        have := Nat.mod_lt (c.toNat - 65536) (show 0 < 1024 by omega)
                        omega
                      obtain ⟨e1, e2, e3, e4, e5⟩ :=
                        hex4_parse (55296 + (c.toNat - 65536) / 1024) hhi
                      obtain ⟨f1, f2, f3, f4, f5⟩ :=
                        hex4_parse (56320 + (c.toNat - 65536) % 1024) hlo
                      simp only [hex4, List.cons_append, List.nil_append]
                      rw [parseU_high (g + 1) _ _ _ _ _ _ _ _ _ e1 e2 e3 e4
                        (by rw [e5]; constructor <;> omega)]
                      rw [e5]
                      rw [parseLowSur_hit g _ _ _ _ _ _ _ _ _ _ f1 f2 f3 f4
                        (by rw [f5]; constructor <;> omega)]
                      rw [f5]
                      rw [ih g rest (by
                        have hx : (hex4 (55296 + (c.toNat - 65536) / 1024)).length = 4 :=
                          rfl
                        have hy : (hex4 (56320 + (c.toNat - 65536) % 1024)).length = 4 :=
                          rfl
                        simp only [List.length_cons, List.length_append, hx, hy] at hlen
                        omega)]
                      have harith : 65536 +
                          (55296 + (c.toNat - 65536) / 1024 - 55296) * 1024 +
                          (56320 + (c.toNat - 65536) % 1024 - 56320) = c.toNat := by
                        omega
                      rw [harith, charOfNat_toNat]
                      rfl

/-- Round trip of the string scanner against the escape serializer. -/
theorem parseStr_escStr (s rest : List Char) :
    parseStr (escStr s ++ '"' :: rest) = some (s, rest) := by
  apply parseStrF_escStr
  simp [List.length_append]

theorem parseVal_null (fuel : Nat) (rest : List Char) :
    parseVal (fuel + 1) ('n' :: 'u' :: 'l' :: 'l' :: rest) = some (.null, rest) := by
  simp [parseVal, expectNull]

theorem parseVal_true (fuel : Nat) (rest : List Char) :
    parseVal (fuel + 1) ('t' :: 'r' :: 'u' :: 'e' :: rest) = some (.bool true, rest) := by
  simp [parseVal, expectTrue]

theorem parseVal_false (fuel : Nat) (rest : List Char) :
    parseVal (fuel + 1) ('f' :: 'a' :: 'l' :: 's' :: 'e' :: rest) =
      some (.bool false, rest) := by
  simp [parseVal, expectFalse]

theorem parseVal_quote (fuel : Nat) (r : List Char) :
    parseVal (fuel + 1) ('"' :: r) = (parseStr r).map (fun p => (.str p.1, p.2)) := by
  simp [parseVal]

theorem parseVal_minus (fuel : Nat) (r : List Char) :
    parseVal (fuel + 1) ('-' :: r) = parseNeg r := by
  simp [parseVal]

theorem parseVal_digit (fuel : Nat) (c : Char) (r : List Char)
    (hdig : isDigitChar c = true) :
    parseVal (fuel + 1) (c :: r) =
      some (.num ((parseDigits (c.toNat - 48) r).1 : Int),
        (parseDigits (c.toNat - 48) r).2) := by
  have h48 : 48 ≤ c.toNat ∧ c.toNat ≤ 57 := by
    simpa [isDigitChar, Bool.and_eq_true, decide_eq_true_eq] using hdig
  simp only [parseVal]
  rw [if_neg (char_ne_of_toNat_ne (by rw [show ('n' : Char).toNat = 110 from rfl]; omega)),
    if_neg (char_ne_of_toNat_ne (by rw [show ('t' : Char).toNat = 116 from rfl]; omega)),
    if_neg (char_ne_of_toNat_ne (by rw [show ('f' : Char).toNat = 102 from rfl]; omega)),
    if_neg (char_ne_of_toNat_ne (by rw [show ('"' : Char).toNat = 34 from rfl]; omega)),
    if_neg (char_ne_of_toNat_ne (by rw [show ('[' : Char).toNat = 91 from rfl]; omega)),
    if_neg (char_ne_of_toNat_ne
      (by rw [show ('\x7b' : Char).toNat = 123 from rfl]; omega)),
    if_neg (char_ne_of_toNat_ne (by rw [show ('-' : Char).toNat = 45 from rfl]; omega)),
    if_pos hdig]

theorem parseVal_arr_empty (fuel : Nat) (rest : List Char) :
    parseVal (fuel + 1) ('[' :: ']' :: rest) = some (.arr [], rest) := by
  simp [parseVal, skipWs, isWsChar]

theorem parseVal_arr_cons (fuel : Nat) (c2 : Char) (r2 : List Char)
    (hne : c2 ≠ ']') (hw : isWsChar c2 = false) :
    parseVal (fuel + 1) ('[' :: c2 :: r2) =
      (parseElems fuel (c2 :: r2)).map (fun p => (.arr p.1, p.2)) := by
  simp only [parseVal]
  rw [if_neg (by decide), if_neg (by decide), if_neg (by decide), if_neg (by decide)]
  simp only [if_true]
  rw [skipWs_cons_notWs _ hw]
  dsimp only
  rw [if_neg hne]

theorem parseVal_obj_empty (fuel : Nat) (rest : List Char) :
    parseVal (fuel + 1) ('\x7b' :: '\x7d' :: rest) = some (.obj [], rest) := by
  simp [parseVal, skipWs, isWsChar]

theorem parseVal_obj_cons (fuel : Nat) (c2 : Char) (r2 : List Char)
    (hne : c2 ≠ '\x7d') (hw : isWsChar c2 = false) :
    parseVal (fuel + 1) ('\x7b' :: c2 :: r2) =
      (parseMems fuel (c2 :: r2)).map (fun p => (.obj p.1, p.2)) := by
  simp only [parseVal]
  rw [if_neg (by decide), if_neg (by decide), if_neg (by decide), if_neg (by decide),
    if_neg (by decide)]
  simp only [if_true]
  rw [skipWs_cons_notWs _ hw]
  dsimp only
  rw [if_neg hne]

/-- Head shape of a serialized value: its first character is a value-start
character.  Gives whitespace passthrough and bracket dispatch at every
position where a value begins. -/
theorem dumps_head (v : Json) :
    ∃ c t, dumps v = c :: t ∧ isValStart c = true := by
  cases v with
  | null => exact ⟨'n', _, rfl, by decide⟩
  | bool b =>
    cases b with
    | true => exact ⟨'t', _, rfl, by decide⟩
    | false => exact ⟨'f', _, rfl, by decide⟩
  | num n =>
    cases n with
    | ofNat m =>
      obtain ⟨c, r, hnr, hdig⟩ := natRepr_head m
      refine ⟨c, r, ?_, by simp [isValStart, hdig]⟩
      simp [dumps, intRepr, hnr]
    | negSucc m => exact ⟨'-', natRepr (m + 1), by simp [dumps, intRepr], by decide⟩
  | str s => exact ⟨'"', escStr s ++ ['"'], by simp [dumps], by decide⟩
  | arr xs => exact ⟨'[', dumpsElems xs ++ [']'], by simp [dumps], by decide⟩
  | obj ms => exact ⟨'\x7b', dumpsMems ms ++ ['\x7d'], by simp [dumps], by decide⟩

theorem skipWs_dumps (v : Json) (tail : List Char) :
    skipWs (dumps v ++ tail) = dumps v ++ tail := by
  obtain ⟨c, t, he, hs⟩ := dumps_head v
  rw [he, List.cons_append, skipWs_cons_notWs _ (isValStart_notWs hs)]

theorem dumpsElems_shape (y : Json) (t : List Json) :
    ∃ u, dumpsElems (y :: t) = dumps y ++ u := by
  cases t with
  | nil => exact ⟨[], by simp [dumpsElems]⟩
  | cons z t2 => exact ⟨',' :: ' ' :: dumpsElems (z :: t2), by simp [dumpsElems]⟩

theorem skipWs_dumpsElems (y : Json) (t : List Json) (tail : List Char) :
    skipWs (dumpsElems (y :: t) ++ tail) = dumpsElems (y :: t) ++ tail := by
  obtain ⟨u, hu⟩ := dumpsElems_shape y t
  rw [hu, List.append_assoc, skipWs_dumps, ← List.append_assoc]

theorem dumpsMems_shape (m : List Char × Json) (t : List (List Char × Json)) :
    ∃ u, dumpsMems (m :: t) = '"' :: u := by
  obtain ⟨k, v⟩ := m
  cases t with
  | nil => exact ⟨escStr k ++ '"' :: ':' :: ' ' :: dumps v, by simp [dumpsMems]⟩
  | cons m2 t2 =>
    exact ⟨escStr k ++ '"' :: ':' :: ' ' :: (dumps v ++ ',' :: ' ' :: dumpsMems (m2 :: t2)),
      by simp [dumpsMems]⟩

theorem skipWs_dumpsMems (m : List Char × Json) (t : List (List Char × Json))
    (tail : List Char) :
    skipWs (dumpsMems (m :: t) ++ tail) = dumpsMems (m :: t) ++ tail := by
  obtain ⟨u, hu⟩ := dumpsMems_shape m t
  rw [hu, List.cons_append, skipWs_cons_notWs _ (by decide)]

theorem jsonW_pos (v : Json) : 1 ≤ jsonW v := by
  cases v <;> simp [jsonW]

theorem elemsW_pos (xs : List Json) : 1 ≤ elemsW xs := by
  cases xs <;> simp [elemsW]

theorem memsW_pos (ms : List (List Char × Json)) : 1 ≤ memsW ms := by
  cases ms with
  | nil => simp [memsW]
  | cons m t =>
    obtain ⟨k, v⟩ := m
    simp [memsW]

set_option maxRecDepth 8192 in
/-- Round trip of the value parser against the serializer, by induction on
the parser fuel: with fuel at least the weight of the value, parsing its
serialization followed by a continuation that does not start with a digit
returns the value and the continuation; similarly for the element list and
member list scanners including their closing bracket. -/
theorem roundAux : ∀ fuel,
    (∀ v rest, jsonW v ≤ fuel → noDigitHead rest →
      parseVal fuel (dumps v ++ rest) = some (v, rest)) ∧
    (∀ xs rest, elemsW xs ≤ fuel → xs ≠ [] →
      parseElems fuel (dumpsElems xs ++ ']' :: rest) = some (xs, rest)) ∧
    (∀ ms rest, memsW ms ≤ fuel → ms ≠ [] →
      parseMems fuel (dumpsMems ms ++ '\x7d' :: rest) = some (ms, rest)) := by
  intro fuel
  induction fuel with
  | zero =>
    refine ⟨?_, ?_, ?_⟩
    · intro v rest hw _
      have := jsonW_pos v
      omega
    · intro xs rest hw _
      have := elemsW_pos xs
      omega
    · intro ms rest hw _
      have := memsW_pos ms
      omega
  | succ fuel ih =>
    obtain ⟨ihV, ihE, ihM⟩ := ih
    refine ⟨?_, ?_, ?_⟩
    · intro v rest hw hrest
      cases v with
      | null =>
        rw [show dumps .null = ['n', 'u', 'l', 'l'] from rfl]
        simp only [List.cons_append, List.nil_append]
        exact parseVal_null fuel rest
      | bool b =>
        cases b with
        | true =>
          rw [show dumps (.bool true) = ['t', 'r', 'u', 'e'] from rfl]
          simp only [List.cons_append, List.nil_append]
          exact parseVal_true fuel rest
        | false =>
          rw [show dumps (.bool false) = ['f', 'a', 'l', 's', 'e'] from rfl]
          simp only [List.cons_append, List.nil_append]
          exact parseVal_false fuel rest
      | num n =>
        cases n with
        | ofNat m =>
          rw [show dumps (.num (.ofNat m)) = natRepr m by simp [dumps, intRepr]]
          obtain ⟨c, r, hnr, hdig⟩ := natRepr_head m
          rw [hnr, List.cons_append, parseVal_digit fuel c _ hdig]
          have hpd : parseDigits (c.toNat - 48) (r ++ rest) = (m, rest) := by
            have h0 := parseDigits_natRepr m rest hrest
            rw [hnr, List.cons_append] at h0
            simp only [parseDigits, hdig, if_pos] at h0
            simpa using h0
          rw [hpd]
          rfl
        | negSucc m =>
          rw [show dumps (.num (.negSucc m)) = '-' :: natRepr (m + 1) by
            simp [dumps, intRepr]]
          rw [List.cons_append, parseVal_minus]
          obtain ⟨c, r, hnr, hdig⟩ := natRepr_head (m + 1)
          rw [hnr, List.cons_append]
          simp only [parseNeg, hdig, if_pos]
          have hpd : parseDigits (c.toNat - 48) (r ++ rest) = (m + 1, rest) := by
            have h0 := parseDigits_natRepr (m + 1) rest hrest
            rw [hnr, List.cons_append] at h0
            simp only [parseDigits, hdig, if_pos] at h0
            simpa using h0
          rw [hpd]
          have hneg : -(((m + 1 : Nat) : Int)) = Int.negSucc m := by
            rw [Int.negSucc_eq]
            push_cast
            ring
          show some (Json.num (-(((m + 1 : Nat) : Int))), rest) =
            some (Json.num (Int.negSucc m), rest)
          rw [hneg]
      | str s =>
        rw [show dumps (.str s) = '"' :: (escStr s ++ ['"']) by simp [dumps]]
        rw [List.cons_append, List.append_assoc, List.singleton_append,
          parseVal_quote, parseStr_escStr]
        rfl
      | arr xs =>
        cases xs with
        | nil =>
          rw [show dumps (.arr []) = ['[', ']'] by simp [dumps, dumpsElems]]
          simp only [List.cons_append, List.nil_append]
          exact parseVal_arr_empty fuel rest
        | cons x t =>
          rw [show dumps (.arr (x :: t)) = '[' :: (dumpsElems (x :: t) ++ [']']) by
            simp [dumps]]
          rw [List.cons_append, List.append_assoc, List.singleton_append]
          obtain ⟨u, hu⟩ := dumpsElems_shape x t
          obtain ⟨c, tt, hd, hs⟩ := dumps_head x
          have hshape : dumpsElems (x :: t) ++ ']' :: rest =
              c :: (tt ++ (u ++ ']' :: rest)) := by
            rw [hu, hd]
            simp [List.cons_append, List.append_assoc]
          have hne : c ≠ ']' := by
            have := isValStart_toNat hs
            exact char_ne_of_toNat_ne
              (by rw [show ((']' : Char)).toNat = 93 from rfl]; omega)
          rw [hshape, parseVal_arr_cons fuel c _ hne (isValStart_notWs hs), ← hshape]
          have hwe : elemsW (x :: t) ≤ fuel := by
            simp only [jsonW] at hw
            omega
          rw [ihE (x :: t) rest hwe (by simp)]
          rfl
      | obj ms =>
        cases ms with
        | nil =>
          rw [show dumps (.obj []) = ['\x7b', '\x7d'] by simp [dumps, dumpsMems]]
          simp only [List.cons_append, List.nil_append]
          exact parseVal_obj_empty fuel rest
        | cons m t =>
          rw [show dumps (.obj (m :: t)) = '\x7b' :: (dumpsMems (m :: t) ++ ['\x7d']) by
            simp [dumps]]
          rw [List.cons_append, List.append_assoc, List.singleton_append]
          obtain ⟨u, hu⟩ := dumpsMems_shape m t
          have hshape : dumpsMems (m :: t) ++ '\x7d' :: rest =
              '"' :: (u ++ '\x7d' :: rest) := by
            rw [hu]
            simp [List.cons_append]
          rw [hshape, parseVal_obj_cons fuel '"' _ (by decide) (by decide), ← hshape]
          have hwm : memsW (m :: t) ≤ fuel := by
            simp only [jsonW] at hw
            omega
          rw [ihM (m :: t) rest hwm (by simp)]
          rfl
    · intro xs rest hw hne
      cases xs with
      | nil => exact absurd rfl hne
      | cons x t =>
        cases t with
        | nil =>
          rw [show dumpsElems [x] = dumps x from rfl]
          simp only [parseElems]
          have hwx : jsonW x ≤ fuel := by
            simp only [elemsW] at hw
            omega
          rw [ihV x (']' :: rest) hwx (by show isDigitChar ']' = false; decide)]
          simp only [Option.some_bind]
          rw [skipWs_cons_notWs _ (by decide)]
          simp
        | cons y t2 =>
          rw [show dumpsElems (x :: y :: t2) =
            dumps x ++ ',' :: ' ' :: dumpsElems (y :: t2) from rfl]
          rw [List.append_assoc, List.cons_append, List.cons_append]
          simp only [parseElems]
          have hwx : jsonW x ≤ fuel := by
            simp only [elemsW] at hw
            omega
          have hwy : elemsW (y :: t2) ≤ fuel := by
            simp only [elemsW] at hw ⊢
            omega
          rw [ihV x (',' :: ' ' :: (dumpsElems (y :: t2) ++ ']' :: rest)) hwx
            (by show isDigitChar ',' = false; decide)]
          simp only [Option.some_bind]
          rw [skipWs_cons_notWs _ (by decide)]
          dsimp only
          rw [if_neg (by decide), if_pos rfl, skipWs_cons_space,
            skipWs_dumpsElems y t2, ihE (y :: t2) rest hwy (by simp)]
          rfl
    · intro ms rest hw hne
      cases ms with
      | nil => exact absurd rfl hne
      | cons m t =>
        obtain ⟨k, v⟩ := m
        cases t with
        | nil =>
          rw [show dumpsMems [(k, v)] =
            '"' :: (escStr k ++ '"' :: ':' :: ' ' :: dumps v) from rfl]
          simp only [List.cons_append, List.append_assoc]
          simp only [parseMems]
          rw [parseStr_escStr]
          simp only [Option.some_bind]
          rw [skipWs_cons_notWs _ (by decide)]
          dsimp only
          rw [if_pos rfl, skipWs_cons_space, skipWs_dumps]
          have hwv : jsonW v ≤ fuel := by
            simp only [memsW] at hw
            omega
          rw [ihV v ('\x7d' :: rest) hwv (by show isDigitChar '\x7d' = false; decide)]
          simp only [Option.some_bind]
          rw [skipWs_cons_notWs _ (by decide)]
          dsimp only
          rw [if_pos rfl]
        | cons m2 t2 =>
          rw [show dumpsMems ((k, v) :: m2 :: t2) =
            ('"' :: (escStr k ++ '"' :: ':' :: ' ' :: dumps v)) ++
              ',' :: ' ' :: dumpsMems (m2 :: t2) by simp [dumpsMems]]
          simp only [List.cons_append, List.append_assoc]
          simp only [parseMems]
          rw [parseStr_escStr]
          simp only [Option.some_bind]
          rw [skipWs_cons_notWs _ (by decide)]
          dsimp only
          rw [if_pos rfl, skipWs_cons_space, skipWs_dumps]
          have hwv : jsonW v ≤ fuel := by
            simp only [memsW] at hw
            omega
          have hwt : memsW (m2 :: t2) ≤ fuel := by
            simp only [memsW] at hw ⊢
            omega
          rw [ihV v (',' :: ' ' :: (dumpsMems (m2 :: t2) ++ '\x7d' :: rest)) hwv
            (by show isDigitChar ',' = false; decide)]
          simp only [Option.some_bind]
          rw [skipWs_cons_notWs _ (by decide)]
          dsimp only
          rw [if_neg (by decide), if_pos rfl, skipWs_cons_space,
            skipWs_dumpsMems m2 t2, ihM (m2 :: t2) rest hwt (by simp)]
          rfl

mutual

/-- Weight of a value is bounded by its serialized length plus one, so the
fuel jsonLoads passes always suffices for a serialized value. -/
theorem jsonW_le : (v : Json) → jsonW v ≤ (dumps v).length + 1
  | .null => by simp [jsonW, dumps]
  | .bool b => by cases b <;> simp [jsonW, dumps]
  | .num n => by
      rw [show jsonW (.num n) = 1 from rfl]
      omega
  | .str s => by
      rw [show jsonW (.str s) = 1 from rfl]
      omega
  | .arr xs => by
      have h := elemsW_le xs
      rw [show jsonW (.arr xs) = 1 + elemsW xs from rfl,
        show dumps (.arr xs) = '[' :: dumpsElems xs ++ [']'] from rfl]
      simp only [List.length_cons, List.length_append]
      omega
  | .obj ms => by
      have h := memsW_le ms
      rw [show jsonW (.obj ms) = 1 + memsW ms from rfl,
        show dumps (.obj ms) = '\x7b' :: dumpsMems ms ++ ['\x7d'] from rfl]
      simp only [List.length_cons, List.length_append]
      omega

/-- Weight bound for element lists. -/
theorem elemsW_le : (xs : List Json) → elemsW xs ≤ (dumpsElems xs).length + 2
  | [] => by simp [elemsW, dumpsElems]
  | [x] => by
      have h := jsonW_le x
      rw [show elemsW [x] = 1 + max (jsonW x) 1 from rfl,
        show dumpsElems [x] = dumps x from rfl]
      omega
  | x :: y :: t => by
      have h1 := jsonW_le x
      have h2 := elemsW_le (y :: t)
      rw [show elemsW (x :: y :: t) = 1 + max (jsonW x) (elemsW (y :: t)) from rfl,
        show dumpsElems (x :: y :: t) =
          dumps x ++ ',' :: ' ' :: dumpsElems (y :: t) from rfl]
      simp only [List.length_cons, List.length_append]
      omega

/-- Weight bound for member lists. -/
theorem memsW_le : (ms : List (List Char × Json)) → memsW ms ≤ (dumpsMems ms).length + 2
  | [] => by simp [memsW, dumpsMems]
  | [(k, v)] => by
      have h := jsonW_le v
      rw [show memsW [(k, v)] = 1 + max (jsonW v) 1 from rfl,
        show dumpsMems [(k, v)] =
          '"' :: escStr k ++ '"' :: ':' :: ' ' :: dumps v from rfl]
      simp only [List.length_cons, List.length_append]
      omega
  | (k, v) :: m :: t => by
      have h1 := jsonW_le v
      have h2 := memsW_le (m :: t)
      rw [show memsW ((k, v) :: m :: t) = 1 + max (jsonW v) (memsW (m :: t)) from rfl,
        show dumpsMems ((k, v) :: m :: t) =
          ('"' :: escStr k ++ '"' :: ':' :: ' ' :: dumps v) ++
            ',' :: ' ' :: dumpsMems (m :: t) from rfl]
      simp only [List.length_cons, List.length_append]
      omega

end

/-- Round trip of serialization: json.loads recovers any value json.dumps
produced. -/
theorem jsonLoads_dumps (v : Json) : jsonLoads (dumps v) = some v := by
  unfold jsonLoads
  rw [show skipWs (dumps v) = dumps v by
    have := skipWs_dumps v []
    simpa using this]
  have hb := jsonW_le v
  have h := (roundAux ((dumps v).length + 1)).1 v [] (by omega) trivial
  rw [List.append_nil] at h
  rw [h]
  rfl

/-- Round trip at the byte level: str.encode then bytes.decode then
json.loads recovers any value json.dumps serialized. -/
theorem jsonLoadsBytes_dumpsBytes (v : Json) :
    jsonLoadsBytes (jsonDumpsBytes v) = some v := by
  unfold jsonLoadsBytes jsonDumpsBytes
  rw [utf8Decode_utf8Encode]
  exact jsonLoads_dumps v

/-- Model of one blocking recv call on a connection: the chunk list is the
byte groups the transport makes available in order, with a buffer for the
unread tail of a previously delivered chunk.  A recv of k bytes returns at
most k bytes from the front, and returns the empty string only when the
stream is exhausted (the peer closed the connection). -/
def sockRecv : List Nat → List (List Nat) → Nat → List Nat × List Nat × List (List Nat)
  | [], [], _ => ([], [], [])
  | [], c :: cs, k => (c.take k, c.drop k, cs)
  | b :: bs, chunks, k => ((b :: bs).take k, (b :: bs).drop k, chunks)

/-- Fuelled exact-count read loop of Membrane._recv_exact and
Synapse._recv_exact in cell-py/cell.py: loop until the requested count is
accumulated, returning None (here none) if a recv returns the empty string
first.  Every successful recv returns at least one byte, so fuel equal to
the requested count always suffices; recvExact passes exactly that. -/
def recvExactAux : Nat → Nat → List Nat → List (List Nat) →
    Option (List Nat × List Nat × List (List Nat))
  | _, 0, buf, chunks => some ([], buf, chunks)
  | 0, _ + 1, _, _ => none
  | fuel + 1, need + 1, buf, chunks =>
    match sockRecv buf chunks (need + 1) with
    | ([], _, _) => none
    | (p :: ps, b, c) =>
      match recvExactAux fuel (need - ps.length) b c with
      | some (d, b2, c2) => some (p :: ps ++ d, b2, c2)
      | none => none

/-- Exact-count read of n bytes (Membrane._recv_exact of cell-py). -/
def recvExact (n : Nat) (buf : List Nat) (chunks : List (List Nat)) :
    Option (List Nat × List Nat × List (List Nat)) :=
  recvExactAux n n buf chunks

/-- Result of one frame decode attempt by the cell-py Membrane: eof models
both break paths of Membrane._handle_transport (header read returned None,
or payload read returned None), frame a fully decoded payload. -/
inductive FrameRes where
  | eof : FrameRes
  | frame (payload : List Nat) : FrameRes
  deriving DecidableEq

/-- One frame decode of Membrane._handle_transport in cell-py/cell.py: an
exact read of the 4 big-endian length bytes, then an exact read of that many
payload bytes; either read failing ends the conversation. -/
def readFrame (buf : List Nat) (chunks : List (List Nat)) :
    FrameRes × List Nat × List (List Nat) :=
  match recvExact 4 buf chunks with
  | none => (.eof, [], [])
  | some (hdr, b1, c1) =>
    match recvExact (beDec hdr) b1 c1 with
    | none => (.eof, [], [])
    | some (p, b2, c2) => (.frame p, b2, c2)

/-- Reserved sentinel payload checked before deserialization. -/
def genomeBytes : List Nat := (("__GENOME__").toList).map Char.toNat

/-- Response payload of the sentinel branch of cell-py. -/
def genomeResp : List Nat :=
  (("\x7b\"type\":\"dynamic_python\"\x7d").toList).map Char.toNat

/-- Observable events of one connection conversation of the cell-py
Membrane: a vesicle sent, the sentinel branch taken, the handler invoked, a
non-JSON payload logged to stderr, or a caught exception logged as a
handler panic. -/
inductive Ev where
  | sentinelHit : Ev
  | sent (data : List Nat) : Ev
  | called (req : Json) : Ev
  | logNonJson : Ev
  | logPanic : Ev

/-- Fuelled conversation loop of Membrane._handle_transport in
cell-py/cell.py over the flat byte sequence the connection delivers before
closing (the exact-count reads make the loop insensitive to chunking).  Each
iteration consumes at least 4 bytes, so fuel above the input length always
suffices.  Either read falling short of its count ends the conversation
silently; a payload that fails UTF-8 decoding raises UnicodeDecodeError,
which the generic except reports as a handler panic; a payload that fails
json.loads is logged as non-JSON; a handler exception is logged as a panic;
a response too long for struct.pack raises and is logged as a panic. -/
def conversationF (h : Json → Except Unit Json) : Nat → List Nat → List Ev
  | 0, _ => []
  | fuel + 1, input =>
    if input.length < 4 then []
    else
      let frameLen := beDec (input.take 4)
      let rest := input.drop 4
      if rest.length < frameLen then []
      else
        let payload := rest.take frameLen
        let rest2 := rest.drop frameLen
        if payload = genomeBytes then
          .sentinelHit :: .sent genomeResp :: conversationF h fuel rest2
        else
          match utf8Decode payload with
          | none => [.logPanic]
          | some s =>
            match jsonLoads s with
            | none => [.logNonJson]
            | some req =>
              match h req with
              | .error _ => [.called req, .logPanic]
              | .ok res =>
                let rb := jsonDumpsBytes res
                if rb.length < 4294967296 then
                  .called req :: .sent rb :: conversationF h fuel rest2
                else [.called req, .logPanic]

/-- Conversation of one connection with the always-sufficient fuel. -/
def conversation (h : Json → Except Unit Json) (input : List Nat) : List Ev :=
  conversationF h (input.length + 1) input

/-- Error outcomes of the client-side call paths. -/
inductive CallErr where
  | connectionClosed : CallErr
  | structError : CallErr
  | unicodeError : CallErr
  | jsonError : CallErr
  | routingRejected : CallErr
  | targetUnavailable : CallErr
  deriving DecidableEq

/-- Model of the broker handshake of Synapse.init in cell-py/cell.py: send
the opcode byte 0x01, the big-endian length of the UTF-8 target name, and
the name bytes; then read one acknowledgement byte from the broker reply
stream and fail (the source raises its rejection exception, the
RoutingRejected of the spec) unless that byte is 0x00.  The first component
is the byte sequence sent to the broker; on a huge name struct.pack raises
after the opcode byte went out. -/
def synapseHandshake (name : List Char) (brokerReply : List Nat) :
    List Nat × Except CallErr Unit :=
  let nameBytes := utf8Encode name
  match packU32BE nameBytes.length with
  | none => ([1], .error .structError)
  | some lb =>
    let sent := 1 :: (lb ++ nameBytes)
    if brokerReply.take 1 = [0] then (sent, .ok ())
    else (sent, .error .routingRejected)

/-- Receive half of Synapse.fire in cell-py/cell.py over the flat byte
sequence the peer delivers before closing: exact reads of the 4 length bytes
and the payload, each raising the connection-closed exception of
Synapse._recv_exact when the stream ends first, then decode and
deserialize. -/
def fireRecv (input : List Nat) : Except CallErr Json :=
  if input.length < 4 then .error .connectionClosed
  else
    let respLen := beDec (input.take 4)
    let rest := input.drop 4
    if rest.length < respLen then .error .connectionClosed
    else
      match utf8Decode (rest.take respLen) with
      | none => .error .unicodeError
      | some s =>
        match jsonLoads s with
        | none => .error .jsonError
        | some v => .ok v

/-- Model of Synapse.fire in cell-py/cell.py: serialize the request, send
the packed big-endian length and the payload, then read one response frame.
The first component is the sent byte trace (none of it is sent when
struct.pack raises on an oversized payload). -/
def fire (data : Json) (respInput : List Nat) : List (List Nat) × Except CallErr Json :=
  let pb := jsonDumpsBytes data
  match packU32BE pb.length with
  | none => ([], .error .structError)
  | some lb => ([lb, pb], fireRecv respInput)

/-- Fuelled up-to-count read of the payload loop in Membrane._handle_client
of cell-sdk-py/cell.py: accumulate recv results until the count is reached,
but stop early (keeping the partial data) when a recv returns the empty
string.  Fuel equal to the requested count suffices. -/
def recvUpToAux : Nat → Nat → List Nat → List (List Nat) →
    List Nat × List Nat × List (List Nat)
  | _, 0, buf, chunks => ([], buf, chunks)
  | 0, _ + 1, buf, chunks => ([], buf, chunks)
  | fuel + 1, need + 1, buf, chunks =>
    match sockRecv buf chunks (need + 1) with
    | ([], b, c) => ([], b, c)
    | (p :: ps, b, c) =>
      let r := recvUpToAux fuel (need - ps.length) b c
      (p :: ps ++ r.1, r.2)

/-- Up-to-count read of n bytes (payload loop of cell-sdk-py). -/
def recvUpTo (n : Nat) (buf : List Nat) (chunks : List (List Nat)) :
    List Nat × List Nat × List (List Nat) :=
  recvUpToAux n n buf chunks

/-- Fuelled conversation loop of Membrane._handle_client in
cell-sdk-py/cell.py, returning the data values handed to json.loads, one per
decoded frame.  The 4 little-endian header bytes are read with one plain
recv call; a short return (fewer than 4 bytes) ends the conversation.  The
payload is read with the up-to-count loop, possibly short on a truncated
stream.  Any exception of json.loads, the handler, or struct.pack on the
response is caught by the handler-wide except and ends the conversation. -/
def sdkFrames (h : Json → Except Unit Json) :
    Nat → List Nat → List (List Nat) → List (List Nat)
  | 0, _, _ => []
  | fuel + 1, buf, chunks =>
    match sockRecv buf chunks 4 with
    | (hdr, b1, c1) =>
      if hdr.length < 4 then []
      else
        let frameLen := leDec hdr
        match recvUpTo frameLen b1 c1 with
        | (data, b2, c2) =>
          data ::
            (match jsonLoadsBytes data with
            | none => []
            | some req =>
              match h req with
              | .error _ => []
              | .ok res =>
                if (jsonDumpsBytes res).length < 4294967296 then sdkFrames h fuel b2 c2
                else [])

/-- Accept-loop events: a connection delivering the given bytes, or an
accept call raising an exception other than KeyboardInterrupt. -/
inductive AcceptEv where
  | conn (input : List Nat) : AcceptEv
  | fail : AcceptEv

/-- Per-iteration outcome of the cell-py accept loop: a handled conversation
or a reported accept error. -/
inductive BindEv where
  | handled (events : List Ev) : BindEv
  | acceptError : BindEv

/-- Accept loop of Membrane.bind in cell-py/cell.py over a finite trace of
accept events: the try block wraps both the accept and the conversation, any
exception is written to stderr and the loop continues with the next
event. -/
def cellBindLoop (h : Json → Except Unit Json) : List AcceptEv → List BindEv
  | [] => []
  | .conn input :: evs => .handled (conversation h input) :: cellBindLoop h evs
  | .fail :: evs => .acceptError :: cellBindLoop h evs

/-- Accept loop of Membrane.bind in cell-sdk-py/cell.py over a finite trace
of accept events, returning the inputs of the connections it accepted (each
is handed to a thread).  Only KeyboardInterrupt is caught; any other accept
exception propagates out of the while loop, so the first failing accept
terminates the loop with the remaining events never seen and nothing
reported. -/
def sdkBindLoop : List AcceptEv → List (List Nat)
  | [] => []
  | .conn input :: evs => input :: sdkBindLoop evs
  | .fail :: _ => []

/-- Socket operations of the client call path of cell-sdk-py. -/
inductive SockOp where
  | connect : SockOp
  | send (bytes : List Nat) : SockOp
  | close : SockOp
  deriving DecidableEq

/-- Fuelled receive loop of Synapse.call in cell-sdk-py/cell.py: while the
data is shorter than the announced length, append the next recv result.  The
loop has no empty-recv check, so on a closed stream the state never changes;
none means the loop is still running after the given number of
iterations. -/
def sdkClientLoop : Nat → List Nat → Nat → List Nat → Option (List Nat)
  | 0, data, frameLen, _ =>
    if frameLen ≤ data.length then some data else none
  | fuel + 1, data, frameLen, rem =>
    if frameLen ≤ data.length then some data
    else
      sdkClientLoop fuel (data ++ rem.take (frameLen - data.length)) frameLen
        (rem.drop (frameLen - data.length))

/-- Model of Synapse.call in cell-sdk-py/cell.py: check that the socket path
exists (raising the ConnectionError that realizes TargetUnavailable when
not), connect, send the little-endian length and payload, read the header
with one recv and unpack it (struct.error on fewer than 4 bytes), run the
receive loop, close, and deserialize.  The first component is the socket
operation trace; a none second component means the receive loop is still
running after the given fuel. -/
def sdkCall (fuel : Nat) (pathExists : Bool) (payload : Json) (respInput : List Nat) :
    List SockOp × Option (Except CallErr Json) :=
  if pathExists = false then ([], some (.error .targetUnavailable))
  else
    let pb := jsonDumpsBytes payload
    match packU32LE pb.length with
    | none => ([.connect], some (.error .structError))
    | some lb =>
      let ops := [SockOp.connect, .send lb, .send pb]
      if respInput.length < 4 then (ops, some (.error .structError))
      else
        let respLen := leDec (respInput.take 4)
        match sdkClientLoop fuel [] respLen (respInput.drop 4) with
        | none => (ops, none)
        | some data =>
          match utf8Decode data with
          | none => (ops ++ [.close], some (.error .unicodeError))
          | some s =>
            match jsonLoads s with
            | none => (ops ++ [.close], some (.error .jsonError))
            | some v => (ops ++ [.close], some (.ok v))

/-- First-match key lookup in the ordered member list of a JSON object,
modelling indexing a Python dict built from those members. -/
def lookupKey : List (List Char × Json) → List Char → Option Json
  | [], _ => none
  | (k, v) :: t, key => if k = key then some v else lookupKey t key

/-- ASCII restriction of Python str.upper: the claims only evaluate the
handler on ASCII text, and on ASCII the full Unicode case mapping agrees
with this. -/
def pyUpperChar (c : Char) : Char :=
  if 97 ≤ c.toNat && c.toNat ≤ 122 then Char.ofNat (c.toNat - 32) else c

/-- Model of handle_request in
src/examples/cell-polyglot/python-worker/main.py: req.get of key text with
default empty string, then a dict with the original, the reversed text, the
uppercased text, and the processed_by marker.  A non-dict request or a
non-string text value raises (none). -/
def handle_request (req : Json) : Option Json :=
  match req with
  | .obj ms =>
    match lookupKey ms (("text").toList) with
    | none => handleText []
    | some (.str s) => handleText s
    | some _ => none
  | _ => none
where
  handleText (s : List Char) : Option Json :=
    some (.obj [
      (("original").toList, .str s),
      (("reversed").toList, .str s.reverse),
      (("uppercase").toList, .str (s.map pyUpperChar)),
      (("processed_by").toList, .str (("Python 3.10").toList))])

theorem sockRecv_append (buf : List Nat) (chunks : List (List Nat)) (k : Nat) :
    (sockRecv buf chunks k).1 ++ (sockRecv buf chunks k).2.1 ++
      (sockRecv buf chunks k).2.2.flatten = buf ++ chunks.flatten := by
  cases buf with
  | nil =>
    cases chunks with
    | nil => simp [sockRecv]
    | cons c cs => simp [sockRecv, List.append_assoc, List.take_append_drop]
  | cons b bs => simp [sockRecv, List.append_assoc, List.take_append_drop]

theorem sockRecv_length_le (buf : List Nat) (chunks : List (List Nat)) (k : Nat) :
    (sockRecv buf chunks k).1.length ≤ k := by
  cases buf with
  | nil =>
    cases chunks with
    | nil => simp [sockRecv]
    | cons c cs => simp [sockRecv]
  | cons b bs => simp [sockRecv]

theorem sockRecv_ne_nil (buf : List Nat) (chunks : List (List Nat)) (k : Nat)
    (hk : 1 ≤ k) (hch : ∀ c ∈ chunks, c ≠ [])
    (hne : buf ++ chunks.flatten ≠ []) : (sockRecv buf chunks k).1 ≠ [] := by
  cases buf with
  | nil =>
    cases chunks with
    | nil => simp at hne
    | cons c cs =>
      have hc : c ≠ [] := hch c (by simp)
      cases c with
      | nil => exact absurd rfl hc
      | cons x xs =>
        cases k with
        | zero => omega
        | succ k2 => simp [sockRecv]
  | cons b bs =>
    cases k with
    | zero => omega
    | succ k2 => simp [sockRecv]

theorem sockRecv_chunks_sub (buf : List Nat) (chunks : List (List Nat)) (k : Nat)
    (hch : ∀ c ∈ chunks, c ≠ []) : ∀ c ∈ (sockRecv buf chunks k).2.2, c ≠ [] := by
  cases buf with
  | nil =>
    cases chunks with
    | nil => simp [sockRecv]
    | cons c cs =>
      intro x hx
      exact hch x (by simp only [sockRecv] at hx; simp [hx])
  | cons b bs =>
    intro x hx
    exact hch x (by simpa [sockRecv] using hx)

/-- Characterization of the exact-count read loop: over a stream whose recv
calls never return empty groups spuriously (each pending chunk is nonempty),
the loop returns exactly the first n bytes of everything the connection
delivers, independent of the chunking, leaving the remainder; it returns
None exactly when the stream closes before n bytes arrive. -/
theorem recvExactAux_spec : ∀ fuel need (buf : List Nat) (chunks : List (List Nat)),
    need ≤ fuel → (∀ c ∈ chunks, c ≠ []) →
    ((need ≤ (buf ++ chunks.flatten).length →
      ∃ b2 c2, recvExactAux fuel need buf chunks =
          some ((buf ++ chunks.flatten).take need, b2, c2) ∧
        b2 ++ c2.flatten = (buf ++ chunks.flatten).drop need ∧
        (∀ c ∈ c2, c ≠ [])) ∧
    ((buf ++ chunks.flatten).length < need → recvExactAux fuel need buf chunks = none)) := by
  intro fuel
  induction fuel with
  | zero =>
    intro need buf chunks hf hch
    have hz : need = 0 := by omega
    subst hz
    constructor
    · intro _
      exact ⟨buf, chunks, by simp [recvExactAux], by simp, hch⟩
    · intro h
      omega
  | succ fuel ih =>
    intro need buf chunks hf hch
    cases need with
    | zero =>
      constructor
      · intro _
        exact ⟨buf, chunks, by simp [recvExactAux], by simp, hch⟩
      · intro h
        omega
    | succ need =>
      rcases hsr : sockRecv buf chunks (need + 1) with ⟨p0, b1, c1⟩
      have happ : p0 ++ b1 ++ c1.flatten = buf ++ chunks.flatten := by
        have := sockRecv_append buf chunks (need + 1)
        rw [hsr] at this
        exact this
      have hsub : ∀ c ∈ c1, c ≠ [] := by
        have := sockRecv_chunks_sub buf chunks (need + 1) hch
        rw [hsr] at this
        exact this
      have hlenp : p0.length ≤ need + 1 := by
        have := sockRecv_length_le buf chunks (need + 1)
        rw [hsr] at this
        exact this
      cases p0 with
      | nil =>
        have hav : buf ++ chunks.flatten = [] := by
          by_contra hne
          have := sockRecv_ne_nil buf chunks (need + 1) (by omega) hch hne
          rw [hsr] at this
          exact this rfl
        constructor
        · intro hle
          rw [hav] at hle
          simp at hle
        · intro _
          simp only [recvExactAux]
          rw [hsr]
      | cons p ps =>
        have hav : buf ++ chunks.flatten = p :: (ps ++ (b1 ++ c1.flatten)) := by
          rw [← happ]
          simp [List.append_assoc]
        have hlen_eq : (buf ++ chunks.flatten).length =
            ps.length + 1 + (b1 ++ c1.flatten).length := by
          rw [hav]
          simp [List.length_append]
          omega
        have hps : ps.length ≤ need := by
          simp at hlenp
          omega
        have hsubfuel : need - ps.length ≤ fuel := by omega
        have IH := ih (need - ps.length) b1 c1 hsubfuel hsub
        constructor
        · intro hle
          have hle2 : need - ps.length ≤ (b1 ++ c1.flatten).length := by omega
          obtain ⟨b2, c2, heq, hrest, hch2⟩ := IH.1 hle2
          refine ⟨b2, c2, ?_, ?_, hch2⟩
          · have htake : (buf ++ chunks.flatten).take (need + 1) =
                p :: (ps ++ (b1 ++ c1.flatten).take (need - ps.length)) := by
              rw [hav, List.take_succ_cons, List.take_append_eq_append_take,
                List.take_of_length_le hps]
            simp only [recvExactAux]
            rw [hsr]
            dsimp only
            rw [heq]
            dsimp only
            rw [htake]
            rfl
          · have hdrop : (buf ++ chunks.flatten).drop (need + 1) =
                (b1 ++ c1.flatten).drop (need - ps.length) := by
              rw [hav, List.drop_succ_cons, List.drop_append_eq_append_drop,
                List.drop_eq_nil_of_le hps, List.nil_append]
            rw [hrest, hdrop]
        · intro hlt
          have hlt2 : (b1 ++ c1.flatten).length < need - ps.length := by omega
          have hnone := IH.2 hlt2
          simp only [recvExactAux]
          rw [hsr]
          dsimp only
          rw [hnone]

/-- Characterization of recvExact with its standard fuel. -/
theorem recvExact_spec (n : Nat) (buf : List Nat) (chunks : List (List Nat))
    (hch : ∀ c ∈ chunks, c ≠ []) :
    (n ≤ (buf ++ chunks.flatten).length →
      ∃ b2 c2, recvExact n buf chunks =
          some ((buf ++ chunks.flatten).take n, b2, c2) ∧
        b2 ++ c2.flatten = (buf ++ chunks.flatten).drop n ∧
        (∀ c ∈ c2, c ≠ [])) ∧
    ((buf ++ chunks.flatten).length < n → recvExact n buf chunks = none) :=
  recvExactAux_spec n n buf chunks le_rfl hch

theorem take_len_append (l1 l2 : List Nat) : (l1 ++ l2).take l1.length = l1 := by
  rw [List.take_append_eq_append_take, List.take_of_length_le le_rfl, Nat.sub_self,
    List.take_zero, List.append_nil]

theorem drop_len_append (l1 l2 : List Nat) : (l1 ++ l2).drop l1.length = l2 := by
  rw [List.drop_append_eq_append_drop, List.drop_eq_nil_of_le le_rfl, Nat.sub_self,
    List.drop_zero, List.nil_append]

theorem frameBytes_length (p : List Nat) : (frameBytes p).length = 4 + p.length := by
  simp [frameBytes, be32]
  omega

/-- A stream that delivers a whole frame (any chunking) makes the cell-py
frame decoder return exactly its payload, leaving the rest of the stream. -/
theorem readFrame_frame (buf : List Nat) (chunks : List (List Nat)) (p tail : List Nat)
    (hch : ∀ c ∈ chunks, c ≠ [])
    (hav : buf ++ chunks.flatten = frameBytes p ++ tail)
    (hp : p.length < 4294967296) :
    ∃ b2 c2, readFrame buf chunks = (.frame p, b2, c2) ∧
      b2 ++ c2.flatten = tail ∧ (∀ c ∈ c2, c ≠ []) := by
  have hlen4 : 4 ≤ (buf ++ chunks.flatten).length := by
    rw [hav, List.length_append, frameBytes_length]
    omega
  obtain ⟨b1, c1, he1, hr1, hch1⟩ := (recvExact_spec 4 buf chunks hch).1 hlen4
  have htk : (buf ++ chunks.flatten).take 4 = be32 p.length := by
    rw [hav, frameBytes, List.append_assoc]
    have h := take_len_append (be32 p.length) (p ++ tail)
    rw [be32_length] at h
    exact h
  have hdr : (buf ++ chunks.flatten).drop 4 = p ++ tail := by
    rw [hav, frameBytes, List.append_assoc]
    have h := drop_len_append (be32 p.length) (p ++ tail)
    rw [be32_length] at h
    exact h
  rw [htk] at he1
  rw [hdr] at hr1
  have hlenp : p.length ≤ (b1 ++ c1.flatten).length := by
    rw [hr1, List.length_append]
    omega
  obtain ⟨b2, c2, he2, hr2, hch2⟩ := (recvExact_spec p.length b1 c1 hch1).1 hlenp
  have htk2 : (b1 ++ c1.flatten).take p.length = p := by
    rw [hr1]
    exact take_len_append p tail
  have hdr2 : (b1 ++ c1.flatten).drop p.length = tail := by
    rw [hr1]
    exact drop_len_append p tail
  rw [htk2] at he2
  rw [hdr2] at hr2
  refine ⟨b2, c2, ?_, hr2, hch2⟩
  unfold readFrame
  rw [he1]
  dsimp only
  rw [beDec_be32 _ hp, he2]

/-- A stream closed before the four length bytes arrive makes the cell-py
frame decoder take its header break path. -/
theorem readFrame_eof_short (buf : List Nat) (chunks : List (List Nat))
    (hch : ∀ c ∈ chunks, c ≠ [])
    (h : (buf ++ chunks.flatten).length < 4) : readFrame buf chunks = (.eof, [], []) := by
  have hnone := (recvExact_spec 4 buf chunks hch).2 h
  unfold readFrame
  rw [hnone]

/-- A stream closed after the length bytes but before the announced payload
is complete makes the cell-py frame decoder take its payload break path. -/
theorem readFrame_eof_trunc (buf : List Nat) (chunks : List (List Nat))
    (frameLen : Nat) (tBytes : List Nat)
    (hch : ∀ c ∈ chunks, c ≠ [])
    (hav : buf ++ chunks.flatten = be32 frameLen ++ tBytes)
    (hL : frameLen < 4294967296)
    (hshort : tBytes.length < frameLen) : readFrame buf chunks = (.eof, [], []) := by
  have hlen4 : 4 ≤ (buf ++ chunks.flatten).length := by
    rw [hav, List.length_append, be32_length]
    omega
  obtain ⟨b1, c1, he1, hr1, hch1⟩ := (recvExact_spec 4 buf chunks hch).1 hlen4
  have htk : (buf ++ chunks.flatten).take 4 = be32 frameLen := by
    rw [hav]
    have h := take_len_append (be32 frameLen) tBytes
    rw [be32_length] at h
    exact h
  have hdr : (buf ++ chunks.flatten).drop 4 = tBytes := by
    rw [hav]
    have h := drop_len_append (be32 frameLen) tBytes
    rw [be32_length] at h
    exact h
  rw [htk] at he1
  rw [hdr] at hr1
  have hnone := (recvExact_spec frameLen b1 c1 hch1).2 (by rw [hr1]; exact hshort)
  unfold readFrame
  rw [he1]
  dsimp only
  rw [beDec_be32 _ hL, hnone]

theorem conversationF_nil (h : Json → Except Unit Json) (fuel : Nat) :
    conversationF h fuel [] = [] := by
  cases fuel with
  | zero => rfl
  | succ f => rfl

/-- One-step unfolding of the conversation loop with the let bindings expanded. -/
theorem conversationF_succ (h : Json → Except Unit Json) (fuel : Nat) (input : List Nat) :
    conversationF h (fuel + 1) input =
      if input.length < 4 then []
      else if (input.drop 4).length < beDec (input.take 4) then []
      else if (input.drop 4).take (beDec (input.take 4)) = genomeBytes then
        .sentinelHit :: .sent genomeResp ::
          conversationF h fuel ((input.drop 4).drop (beDec (input.take 4)))
      else
        match utf8Decode ((input.drop 4).take (beDec (input.take 4))) with
        | none => [.logPanic]
        | some s =>
          match jsonLoads s with
          | none => [.logNonJson]
          | some req =>
            match h req with
            | .error _ => [.called req, .logPanic]
            | .ok res =>
              if (jsonDumpsBytes res).length < 4294967296 then
                .called req :: .sent (jsonDumpsBytes res) ::
                  conversationF h fuel ((input.drop 4).drop (beDec (input.take 4)))
              else [.called req, .logPanic] := rfl

theorem frameBytes_take4 (p : List Nat) : (frameBytes p).take 4 = be32 p.length := by
  unfold frameBytes
  have h := take_len_append (be32 p.length) p
  rw [be32_length] at h
  exact h

theorem frameBytes_drop4 (p : List Nat) : (frameBytes p).drop 4 = p := by
  unfold frameBytes
  have h := drop_len_append (be32 p.length) p
  rw [be32_length] at h
  exact h

/-- One-frame conversation: delivering exactly one frame and closing runs a
single iteration of the cell-py conversation loop. -/
theorem conversation_one_frame (h : Json → Except Unit Json) (p : List Nat)
    (hplen : p.length < 4294967296) :
    conversation h (frameBytes p) =
      if p = genomeBytes then [.sentinelHit, .sent genomeResp]
      else
        match utf8Decode p with
        | none => [.logPanic]
        | some s =>
          match jsonLoads s with
          | none => [.logNonJson]
          | some req =>
            match h req with
            | .error _ => [.called req, .logPanic]
            | .ok res =>
              if (jsonDumpsBytes res).length < 4294967296 then
                [.called req, .sent (jsonDumpsBytes res)]
              else [.called req, .logPanic] := by
  unfold conversation
  rw [conversationF_succ]
  rw [if_neg (by rw [frameBytes_length]; omega)]
  rw [frameBytes_take4, frameBytes_drop4, beDec_be32 _ hplen]
  rw [List.take_length, List.drop_length]
  rw [if_neg (by simp)]
  by_cases hg : p = genomeBytes
  · rw [if_pos hg, if_pos hg, conversationF_nil]
  · rw [if_neg hg, if_neg hg]
    cases hu : utf8Decode p with
    | none => rfl
    | some s =>
      cases hj : jsonLoads s with
      | none => simp [hj]
      | some req =>
        simp only [hj]
        cases hh : h req with
        | error e => simp [hh]
        | ok res =>
          simp only [hh]
          by_cases hrb : (jsonDumpsBytes res).length < 4294967296
          · rw [if_pos hrb, if_pos hrb, conversationF_nil]
          · rw [if_neg hrb, if_neg hrb]

/-- C1 counterexample: closing the stream after a single byte of the length
field produces the same observable outcome as a clean disconnect before any
byte: the same eof result of the frame decoder with the same final state,
and the same empty event trace of the conversation (nothing decoded and
nothing reported to the operator) — refuting the distinct TruncatedFrame
error the claim requires for mid-length truncation. -/
theorem c1_counterexample :
    readFrame [] [[0]] = readFrame [] [] ∧
    conversation (fun j => .ok j) [0, 0] = conversation (fun j => .ok j) [] := by
  exact ⟨rfl, rfl⟩

theorem recvUpToAux_nil (fuel need : Nat) : recvUpToAux fuel need [] [] = ([], [], []) := by
  cases fuel with
  | zero =>
    cases need with
    | zero => rfl
    | succ n => rfl
  | succ f =>
    cases need with
    | zero => rfl
    | succ n => rfl

/-- The up-to-count payload read of cell-sdk-py on a stream that closes
before the count is reached keeps the partial data it accumulated. -/
theorem recvUpTo_closed (n : Nat) (buf : List Nat) (hlt : buf.length < n) :
    recvUpTo n buf [] = (buf, [], []) := by
  unfold recvUpTo
  cases n with
  | zero => omega
  | succ m =>
    cases buf with
    | nil => exact recvUpToAux_nil (m + 1) (m + 1)
    | cons p ps =>
      have hle : (p :: ps).length ≤ m + 1 := le_of_lt hlt
      have hsock : sockRecv (p :: ps) [] (m + 1) = (p :: ps, [], []) := by
        show ((p :: ps).take (m + 1), (p :: ps).drop (m + 1), ([] : List (List Nat))) =
          (p :: ps, [], [])
        rw [List.take_of_length_le hle, List.drop_eq_nil_of_le hle]
      simp only [recvUpToAux, hsock, recvUpToAux_nil, List.append_nil]

theorem sdkFrames_nil (h : Json → Except Unit Json) (fuel : Nat) :
    sdkFrames h fuel [] [] = [] := by
  cases fuel with
  | zero => rfl
  | succ f => rfl

/-- C1 amended: neither implementation has a distinct TruncatedFrame error.
In cell-py, a stream closed before the first length byte yields the eof
break of the decoder (clean disconnect); a stream closed after some but not
all of the 4 length bytes, or after fewer than the announced number of
payload bytes, yields the same eof outcome — the conversation ends with no
decoded frame and nothing reported, an event trace identical to a clean
disconnect.  In cell-sdk-py, a close that leaves fewer than 4 header bytes
likewise ends the conversation silently with no decoded frame, but a close
mid-payload does not: the partial payload bytes are handed to json.loads as
a decoded frame (the conversation can invoke the handler and respond, or
report a parse error), so there truncation differs from a clean disconnect
without being a distinct error. -/
theorem c1_truncation_indistinguishable
    (h : Json → Except Unit Json) (chunks : List (List Nat)) (frameLen : Nat)
    (tb : List Nat) (hch : ∀ c ∈ chunks, c ≠ []) :
    (chunks.flatten = [] → readFrame [] chunks = (.eof, [], [])) ∧
    (chunks.flatten.length < 4 → readFrame [] chunks = (.eof, [], [])) ∧
    (chunks.flatten = be32 frameLen ++ tb → frameLen < 4294967296 →
      tb.length < frameLen → readFrame [] chunks = (.eof, [], [])) ∧
    (∀ input : List Nat, input.length < 4 → conversation h input = conversation h []) ∧
    (∀ (input tb2 : List Nat) (l2 : Nat), input = be32 l2 ++ tb2 → l2 < 4294967296 →
      tb2.length < l2 → conversation h input = conversation h []) ∧
    (∀ (h2 : Json → Except Unit Json) (fuel : Nat) (chunks2 : List (List Nat)),
      chunks2.flatten.length < 4 → sdkFrames h2 fuel [] chunks2 = []) ∧
    (∀ (h2 : Json → Except Unit Json) (fuel l2 : Nat) (pbytes : List Nat),
      pbytes.length < l2 → l2 < 4294967296 →
      sdkFrames h2 (fuel + 1) [] [le32 l2 ++ pbytes] = [pbytes]) := by
  refine ⟨?_, ?_, ?_, ?_, ?_, ?_, ?_⟩
  · intro hnil
    apply readFrame_eof_short [] chunks hch
    rw [List.nil_append, hnil]
    simp
  · intro hlt
    apply readFrame_eof_short [] chunks hch
    simpa using hlt
  · intro hflat hl ht
    exact readFrame_eof_trunc [] chunks frameLen tb hch (by simpa using hflat) hl ht
  · intro input hlt
    unfold conversation
    rw [conversationF_succ, if_pos hlt]
    rfl
  · intro input tb2 l2 hin hl2 ht2
    unfold conversation
    rw [conversationF_succ]
    have hlen : input.length = 4 + tb2.length := by
      rw [hin, List.length_append, be32_length]
    rw [if_neg (by omega)]
    have ht4 : input.take 4 = be32 l2 := by
      rw [hin]
      have hx := take_len_append (be32 l2) tb2
      rw [be32_length] at hx
      exact hx
    have hd4 : input.drop 4 = tb2 := by
      rw [hin]
      have hx := drop_len_append (be32 l2) tb2
      rw [be32_length] at hx
      exact hx
    rw [ht4, hd4, beDec_be32 _ hl2, if_pos ht2]
    rfl
  · intro h2 fuel chunks2 hflat4
    cases fuel with
    | zero => rfl
    | succ f =>
      cases chunks2 with
      | nil => rfl
      | cons c cs =>
        have hfl : (c :: cs).flatten = c ++ cs.flatten := rfl
        have hc : c.length < 4 := by
          rw [hfl, List.length_append] at hflat4
          omega
        have h4 : (c.take 4).length < 4 := by
          rw [List.length_take]
          omega
        simp only [sdkFrames, sockRecv]
        rw [if_pos h4]
  · intro h2 fuel l2 pbytes hsh hl2
    have ht4 : (le32 l2 ++ pbytes).take 4 = le32 l2 := by
      have hx := take_len_append (le32 l2) pbytes
      rw [le32_length] at hx
      exact hx
    have hd4 : (le32 l2 ++ pbytes).drop 4 = pbytes := by
      have hx := drop_len_append (le32 l2) pbytes
      rw [le32_length] at hx
      exact hx
    have hno : ¬((le32 l2).length < 4) := by
      rw [le32_length]
      omega
    have hupto := recvUpTo_closed l2 pbytes hsh
    simp only [sdkFrames, sockRecv, ht4, hd4, if_neg hno, leDec_le32 l2 hl2, hupto]
    congr 1
    cases hjl : jsonLoadsBytes pbytes with
    | none => simp [hjl]
    | some req =>
      simp only [hjl]
      cases hh : h2 req with
      | error e => simp [hh]
      | ok res =>
        simp only [hh]
        by_cases hrb : (jsonDumpsBytes res).length < 4294967296
        · rw [if_pos hrb, sdkFrames_nil]
        · rw [if_neg hrb]

/-- C1 witness at concrete inputs: close mid-length and close mid-payload
against cell-py, close mid-header and close mid-payload against
cell-sdk-py. -/
theorem c1_truncation_indistinguishable_witness :
    readFrame [] [[0]] = (.eof, [], []) ∧
    conversation (fun j => .ok j) [0, 0, 0, 2, 9] = conversation (fun j => .ok j) [] ∧
    sdkFrames (fun j => .ok j) 3 [] [[9]] = [] ∧
    sdkFrames (fun j => .ok j) (6 + 1) [] [le32 4 ++ [49, 50]] = [[49, 50]] := by
  refine ⟨?_, ?_, ?_, ?_⟩
  · exact (c1_truncation_indistinguishable (fun j => .ok j) [[0]] 2 [9]
      (by decide)).2.1 (by decide)
  · exact (c1_truncation_indistinguishable (fun j => .ok j) [[0]] 2 [9]
      (by decide)).2.2.2.2.1 [0, 0, 0, 2, 9] [9] 2 (by decide) (by decide) (by decide)
  · exact (c1_truncation_indistinguishable (fun j => .ok j) [[0]] 2 [9]
      (by decide)).2.2.2.2.2.1 (fun j => .ok j) 3 [[9]] (by decide)
  · exact (c1_truncation_indistinguishable (fun j => .ok j) [[0]] 2 [9]
      (by decide)).2.2.2.2.2.2 (fun j => .ok j) 6 4 [49, 50] (by decide) (by decide)

/-- C2 counterexample: the 4 little-endian header bytes of a frame split
across two recv results make the cell-sdk-py receive loop decode zero of the
two well-formed frames on the stream — the single plain recv of the header
returns 2 bytes and the length check ends the conversation. -/
theorem c2_counterexample :
    sdkFrames (fun j => .ok j) 5 [] [[2, 0], [0, 0, 65, 66, 3, 0, 0, 0, 67, 68, 69]] = [] := by
  rfl

/-- C2 amended: the cell-py receiver uses exact-count reads, so however the
transport chunks two back-to-back frames into nonempty recv results it
decodes exactly the two payloads in order and then reports end of stream;
the cell-sdk-py receiver reads its header with one plain recv, so a chunking
that splits the header ends its conversation with no frame decoded,
whatever the fuel. -/
theorem c2_two_frames_any_chunking
    (chunks : List (List Nat)) (p1 p2 : List Nat)
    (hch : ∀ c ∈ chunks, c ≠ [])
    (hflat : chunks.flatten = frameBytes p1 ++ frameBytes p2)
    (h1 : p1.length < 4294967296) (h2 : p2.length < 4294967296) :
    (∃ b1 c1 b2 c2,
      readFrame [] chunks = (.frame p1, b1, c1) ∧
      readFrame b1 c1 = (.frame p2, b2, c2) ∧
      readFrame b2 c2 = (.eof, [], [])) ∧
    (∀ (h : Json → Except Unit Json) (fuel : Nat),
      sdkFrames h (fuel + 1) [] [[2, 0], [0, 0, 65, 66, 3, 0, 0, 0, 67, 68, 69]] = []) := by
  constructor
  · obtain ⟨b1, c1, he1, hr1, hc1⟩ := readFrame_frame [] chunks p1 (frameBytes p2) hch
      (by simpa using hflat) h1
    obtain ⟨b2, c2, he2, hr2, hc2⟩ := readFrame_frame b1 c1 p2 [] hc1
      (by rw [List.append_nil]; exact hr1) h2
    refine ⟨b1, c1, b2, c2, he1, he2, ?_⟩
    apply readFrame_eof_short b2 c2 hc2
    rw [hr2]
    simp
  · intro h fuel
    rfl

/-- C2 witness: a chunking of the two frames cutting both the length field
and a payload. -/
theorem c2_two_frames_any_chunking_witness :
    (∃ b1 c1 b2 c2,
      readFrame [] [[0], [0, 0, 2, 65], [66, 0, 0, 0], [1, 67]] = (.frame [65, 66], b1, c1) ∧
      readFrame b1 c1 = (.frame [67], b2, c2) ∧
      readFrame b2 c2 = (.eof, [], [])) ∧
    (∀ (h : Json → Except Unit Json) (fuel : Nat),
      sdkFrames h (fuel + 1) [] [[2, 0], [0, 0, 65, 66, 3, 0, 0, 0, 67, 68, 69]] = []) :=
  c2_two_frames_any_chunking [[0], [0, 0, 2, 65], [66, 0, 0, 0], [1, 67]] [65, 66] [67]
    (by decide) (by decide) (by decide) (by decide)

/-- C3: the response path round trip — json.dumps then str.encode framed by
_send_vesicle is decoded by the exact-count frame reader from any nonempty
chunking of the wire bytes, and bytes.decode followed by json.loads recovers
the original value. -/
theorem c3_roundtrip (v : Json) (hlen : (jsonDumpsBytes v).length < 4294967296) :
    ∃ wire : List Nat, sendVesicle (jsonDumpsBytes v) = some wire ∧
      (∀ chunks : List (List Nat), (∀ c ∈ chunks, c ≠ []) → chunks.flatten = wire →
        ∃ b c, readFrame [] chunks = (.frame (jsonDumpsBytes v), b, c)) ∧
      jsonLoadsBytes (jsonDumpsBytes v) = some v := by
  refine ⟨frameBytes (jsonDumpsBytes v), sendVesicle_eq_frameBytes _ hlen, ?_,
    jsonLoadsBytes_dumpsBytes v⟩
  intro chunks hch hflat
  obtain ⟨b, c, he, _, _⟩ := readFrame_frame [] chunks (jsonDumpsBytes v) [] hch
    (by rw [List.nil_append, hflat, List.append_nil]) hlen
  exact ⟨b, c, he⟩

/-- C3 witness at a concrete nested value. -/
theorem c3_roundtrip_witness :
    ∃ wire : List Nat,
      sendVesicle (jsonDumpsBytes (.obj [(("a").toList,
        .arr [.num 1, .null, .str (("x").toList)])])) = some wire ∧
      (∀ chunks : List (List Nat), (∀ c ∈ chunks, c ≠ []) → chunks.flatten = wire →
        ∃ b c, readFrame [] chunks =
          (.frame (jsonDumpsBytes (.obj [(("a").toList,
            .arr [.num 1, .null, .str (("x").toList)])])), b, c)) ∧
      jsonLoadsBytes (jsonDumpsBytes (.obj [(("a").toList,
        .arr [.num 1, .null, .str (("x").toList)])])) =
        some (.obj [(("a").toList, .arr [.num 1, .null, .str (("x").toList)])]) :=
  c3_roundtrip (.obj [(("a").toList, .arr [.num 1, .null, .str (("x").toList)])]) (by decide)

/-- C4: the Synapse handshake of cell-py sends exactly the opcode byte 0x01,
the 4 big-endian length bytes of the UTF-8 target name, and the name bytes,
then reads a single acknowledgement byte: 0x00 proceeds, anything else is
the routing rejection. -/
theorem c4_handshake (name : List Char) (reply : List Nat)
    (hlen : (utf8Encode name).length < 4294967296) :
    synapseHandshake name reply =
      (1 :: (be32 (utf8Encode name).length ++ utf8Encode name),
        if reply.take 1 = [0] then .ok () else .error .routingRejected) := by
  have hp : packU32BE (utf8Encode name).length = some (be32 (utf8Encode name).length) := by
    simp [packU32BE, hlen]
  simp only [synapseHandshake, hp]
  by_cases hr : reply.take 1 = [0]
  · rw [if_pos hr, if_pos hr]
  · rw [if_neg hr, if_neg hr]

/-- C4 witness: a one-character name, an accepting broker. -/
theorem c4_handshake_witness :
    synapseHandshake (("w").toList) [0] =
      (1 :: (be32 (utf8Encode (("w").toList)).length ++ utf8Encode (("w").toList)),
        if ([0] : List Nat).take 1 = [0] then .ok () else .error .routingRejected) :=
  c4_handshake (("w").toList) [0] (by decide)

/-- C5: the __GENOME__ sentinel is checked on the raw payload bytes before
any deserialization — the sentinel payload (itself not valid JSON) takes the
sentinel branch and answers the dynamic_python vesicle without calling the
handler, and no other payload ever takes that branch. -/
theorem c5_sentinel (h : Json → Except Unit Json) (p : List Nat)
    (hp : p ≠ genomeBytes) (hplen : p.length < 4294967296) :
    conversation h (frameBytes genomeBytes) = [.sentinelHit, .sent genomeResp] ∧
    jsonLoadsBytes genomeBytes = none ∧
    Ev.sentinelHit ∉ conversation h (frameBytes p) := by
  refine ⟨?_, by rfl, ?_⟩
  · rw [conversation_one_frame h genomeBytes (by decide)]
    rw [if_pos rfl]
  · rw [conversation_one_frame h p hplen, if_neg hp]
    cases hu : utf8Decode p with
    | none => simp
    | some s =>
      cases hj : jsonLoads s with
      | none => simp [hj]
      | some req =>
        simp only [hj]
        cases hh : h req with
        | error e => simp [hh]
        | ok res =>
          simp only [hh]
          by_cases hrb : (jsonDumpsBytes res).length < 4294967296
          · rw [if_pos hrb]
            simp
          · rw [if_neg hrb]
            simp

/-- C5 witness: the sentinel frame against the frame of the payload null. -/
theorem c5_sentinel_witness :
    conversation (fun j => Except.ok j) (frameBytes genomeBytes) =
      [.sentinelHit, .sent genomeResp] ∧
    jsonLoadsBytes genomeBytes = none ∧
    Ev.sentinelHit ∉ conversation (fun j => Except.ok j) (frameBytes [110, 117, 108, 108]) :=
  c5_sentinel (fun j => Except.ok j) [110, 117, 108, 108] (by decide) (by decide)

theorem sdkClientLoop_hang (l : Nat) (fuel : Nat) : ∀ (data rem : List Nat),
    data.length + rem.length < l → sdkClientLoop fuel data l rem = none := by
  induction fuel with
  | zero =>
    intro data rem h
    unfold sdkClientLoop
    rw [if_neg (by omega)]
  | succ f ih =>
    intro data rem h
    unfold sdkClientLoop
    rw [if_neg (by omega)]
    apply ih
    simp only [List.length_append, List.length_take, List.length_drop]
    omega

/-- C6 counterexample: a peer that closes before sending any header byte
makes Synapse.call of cell-sdk-py raise struct.error (unpacking an empty
read), not the claimed ConnectionClosed. -/
theorem c6_counterexample :
    sdkCall 100 true Json.null [] =
      ([SockOp.connect, SockOp.send [4, 0, 0, 0], SockOp.send [110, 117, 108, 108]],
        some (.error .structError)) := by
  rfl

/-- C6 amended: in cell-py Synapse.fire every premature close — during the 4
length bytes or during the payload — raises the connection-closed error; in
cell-sdk-py Synapse.call a close before 4 header bytes raises struct.error
instead, and a close during the payload leaves the no-progress receive loop
running forever (no result at any fuel). -/
theorem c6_disconnect_behaviour (input : List Nat) (l : Nat) (tb : List Nat) :
    (input.length < 4 → fireRecv input = .error .connectionClosed) ∧
    (input = be32 l ++ tb → l < 4294967296 → tb.length < l →
      fireRecv input = .error .connectionClosed) ∧
    (∀ (fuel : Nat) (v : Json) (resp : List Nat), resp.length < 4 →
      (sdkCall fuel true v resp).2 = some (.error .structError)) ∧
    (∀ (fuel : Nat) (data rem : List Nat), data.length + rem.length < l →
      sdkClientLoop fuel data l rem = none) ∧
    (∀ fuel : Nat, (sdkCall fuel true Json.null [2, 0, 0, 0, 65]).2 = none) := by
  refine ⟨?_, ?_, ?_, fun fuel => sdkClientLoop_hang l fuel, ?_⟩
  · intro h
    unfold fireRecv
    rw [if_pos h]
  · intro hin hl ht
    have hlen : input.length = 4 + tb.length := by
      rw [hin, List.length_append, be32_length]
    have ht4 : input.take 4 = be32 l := by
      rw [hin]
      have hx := take_len_append (be32 l) tb
      rw [be32_length] at hx
      exact hx
    have hd4 : input.drop 4 = tb := by
      rw [hin]
      have hx := drop_len_append (be32 l) tb
      rw [be32_length] at hx
      exact hx
    simp only [fireRecv, ht4, hd4, beDec_be32 _ hl]
    rw [if_neg (by omega), if_pos ht]
  · intro fuel v resp hr
    cases hpk : packU32LE (jsonDumpsBytes v).length with
    | none => simp [sdkCall, hpk]
    | some lb => simp [sdkCall, hpk, if_pos hr]
  · intro fuel
    have hdec : leDec (List.take 4 ([2, 0, 0, 0, 65] : List Nat)) = 2 := by decide
    have hl2 : sdkClientLoop fuel [] (leDec (List.take 4 ([2, 0, 0, 0, 65] : List Nat)))
        (List.drop 4 ([2, 0, 0, 0, 65] : List Nat)) = none := by
      rw [hdec]
      exact sdkClientLoop_hang 2 fuel [] _ (by decide)
    have hpk : packU32LE (jsonDumpsBytes Json.null).length = some [4, 0, 0, 0] := by decide
    simp only [sdkCall, hpk, hl2,
      if_neg (show ¬(true = false) by decide),
      if_neg (show ¬(([2, 0, 0, 0, 65] : List Nat).length < 4) by decide)]

/-- C6 witness: close mid-length and mid-payload against cell-py fire, an
empty reply and a truncated reply against cell-sdk-py call. -/
theorem c6_disconnect_behaviour_witness :
    fireRecv [0] = .error .connectionClosed ∧
    fireRecv [0, 0, 0, 2, 65] = .error .connectionClosed ∧
    (sdkCall 3 true Json.null [7]).2 = some (.error .structError) ∧
    sdkClientLoop 9 [] 2 [5] = none ∧
    (sdkCall 7 true Json.null [2, 0, 0, 0, 65]).2 = none := by
  refine ⟨?_, ?_, ?_, ?_, ?_⟩
  · exact (c6_disconnect_behaviour [0] 2 [65]).1 (by decide)
  · exact (c6_disconnect_behaviour [0, 0, 0, 2, 65] 2 [65]).2.1 (by decide) (by decide)
      (by decide)
  · exact (c6_disconnect_behaviour [0] 2 [65]).2.2.1 3 Json.null [7] (by decide)
  · exact (c6_disconnect_behaviour [0] 2 [65]).2.2.2.1 9 [] [5] (by decide)
  · exact (c6_disconnect_behaviour [0] 2 [65]).2.2.2.2 7

/-- C7: Synapse.call of cell-sdk-py checks the socket path before
connecting; a missing path raises the connection error realizing
TargetUnavailable with no socket operation performed, whatever the payload
and the peer behaviour. -/
theorem c7_target_unavailable (fuel : Nat) (payload : Json) (resp : List Nat) :
    sdkCall fuel false payload resp = ([], some (.error .targetUnavailable)) := by
  unfold sdkCall
  rw [if_pos rfl]

/-- C8 counterexample: on the text abc the worker handler does not return
the claimed three-key object — the returned object has a fourth key. -/
theorem c8_counterexample :
    handle_request (.obj [(("text").toList, .str (("abc").toList))]) ≠
      some (.obj [(("original").toList, .str (("abc").toList)),
        (("reversed").toList, .str (("cba").toList)),
        (("uppercase").toList, .str (("ABC").toList))]) := by
  intro hcontra
  have h2 := congrArg (fun o : Option Json =>
    match o with
    | some (.obj ms) => ms.length
    | _ => 0) hcontra
  exact absurd h2 (by decide)

/-- C8 amended: on a request with a string text field the worker handler
returns the object with the original, reversed and uppercased text plus the
processed_by marker set to Python 3.10 — four keys, in this order. -/
theorem c8_handler_shape (s : List Char) :
    handle_request (.obj [(("text").toList, .str s)]) =
      some (.obj [(("original").toList, .str s),
        (("reversed").toList, .str s.reverse),
        (("uppercase").toList, .str (s.map pyUpperChar)),
        (("processed_by").toList, .str (("Python 3.10").toList))]) := rfl

/-- C9 counterexample: in cell-sdk-py a single failing accept ends the bind
loop — a connection arriving right after the failure is never served. -/
theorem c9_counterexample :
    sdkBindLoop [AcceptEv.fail, AcceptEv.conn [1, 2]] = [] := rfl

/-- C9 amended: the cell-py accept loop catches every per-iteration
exception and continues — it produces one outcome per accept event, a
reported accept error never stops later connections from being handled; the
cell-sdk-py loop catches only KeyboardInterrupt, so its first failing accept
terminates it with all remaining events unserved. -/
theorem c9_accept_loop_resilience (h : Json → Except Unit Json) (evs : List AcceptEv) :
    (cellBindLoop h evs).length = evs.length ∧
    (∀ (input : List Nat) (evs2 : List AcceptEv),
      cellBindLoop h (AcceptEv.conn input :: evs2) =
        .handled (conversation h input) :: cellBindLoop h evs2) ∧
    (∀ evs2 : List AcceptEv,
      cellBindLoop h (AcceptEv.fail :: evs2) = .acceptError :: cellBindLoop h evs2) ∧
    (∀ evs2 : List AcceptEv, sdkBindLoop (AcceptEv.fail :: evs2) = []) := by
  refine ⟨?_, fun input evs2 => rfl, fun evs2 => rfl, fun evs2 => rfl⟩
  induction evs with
  | nil => rfl
  | cons e t ih =>
    cases e with
    | conn input => simp [cellBindLoop, ih]
    | fail => simp [cellBindLoop, ih]

/-- C10: the frame length field is the exact byte count of the payload (the
4 packed bytes decode back to the length, big-endian in cell-py and
little-endian in cell-sdk-py), the payload follows unchanged, and a payload
of 2^32 or more bytes makes struct.pack fail rather than wrap. -/
theorem c10_length_field (data : List Nat) :
    (data.length < 4294967296 →
      sendVesicle data = some (be32 data.length ++ data) ∧
      (be32 data.length).length = 4 ∧
      beDec (be32 data.length) = data.length ∧
      packU32LE data.length = some (le32 data.length) ∧
      leDec (le32 data.length) = data.length) ∧
    (4294967296 ≤ data.length →
      sendVesicle data = none ∧ packU32LE data.length = none) := by
  constructor
  · intro h
    refine ⟨?_, be32_length _, beDec_be32 _ h, ?_, leDec_le32 _ h⟩
    · rw [sendVesicle_eq_frameBytes data h]
      rfl
    · unfold packU32LE
      rw [if_pos h]
  · intro h
    constructor
    · unfold sendVesicle packU32BE
      rw [if_neg (by omega)]
    · unfold packU32LE
      rw [if_neg (by omega)]

/-- C10 witness: a 2-byte payload, and an oversized payload of exactly 2^32
zero bytes. -/
theorem c10_length_field_witness :
    (sendVesicle [1, 2] = some (be32 ([1, 2] : List Nat).length ++ [1, 2]) ∧
      (be32 ([1, 2] : List Nat).length).length = 4 ∧
      beDec (be32 ([1, 2] : List Nat).length) = ([1, 2] : List Nat).length ∧
      packU32LE ([1, 2] : List Nat).length = some (le32 ([1, 2] : List Nat).length) ∧
      leDec (le32 ([1, 2] : List Nat).length) = ([1, 2] : List Nat).length) ∧
    (sendVesicle (List.replicate 4294967296 0) = none ∧
      packU32LE (List.replicate 4294967296 0).length = none) := by
  constructor
  · exact (c10_length_field [1, 2]).1 (by decide)
  · exact (c10_length_field (List.replicate 4294967296 0)).2
      (le_of_eq (List.length_replicate 4294967296 0).symm)

end Cell
